import Mathlib

/-!
# Verification of the ripvex archive-extraction core

Shallow embedding of the extraction subsystem of `lucrnz/ripvex`:

* `internal/util` — `StripPathComponents`, `IsPathSafe`, `ResolvePathWithinBase`
* `internal/archive/extract.go` — the tar entry loop (`extractTar`) and the
  deferred hard-link pass
* `internal/archive` zip driver — `extractZipFile`
* `internal/archive/copy.go` — `copyWithContext`

Paths are modelled as lists of segments of an absolute, `filepath.Clean`ed
path (each segment is one component between `/` separators).  The filesystem
is an association list from paths to nodes; symlink nodes store their target
exactly as the string passed to `os.Symlink`, mirroring the fact that the
on-disk link carries that string verbatim.  I/O errors other than the ones
the source code branches on (not-exist, escape, size, truncation) are not
modelled: `os.Remove` always succeeds and `os.Stat` is a plain lookup that
does not chase symlink chains, which is faithful on the flat layouts the
claims quantify over.
-/

namespace Ripvex

abbrev Seg := String

/-- An absolute path, as the list of its cleaned segments. -/
abbrev Path := List Seg

/-- A filesystem node.  `symlink` stores the target string verbatim (the
argument `os.Symlink` received); `hardlink` stores the resolved target path
`os.Link` received; neither carries a permission mode, matching the Go API
where `os.Symlink` and `os.Link` take no mode argument. -/
inductive Node where
  | dir (mode : Nat)
  | file (size : Nat) (mode : Nat)
  | symlink (target : String)
  | hardlink (target : Path)
deriving DecidableEq

/-- The filesystem: an association list from absolute paths to nodes. -/
abbrev Fs := List (Path × Node)

/-- `os.Lstat`: look a path up without following a trailing symlink. -/
def lookupFs : Fs → Path → Option Node
  | [], _ => none
  | (q, n) :: t, p => if q = p then some n else lookupFs t p

/-- Remove a path (models `os.Remove`; directories removed unconditionally). -/
def eraseFs : Fs → Path → Fs
  | [], _ => []
  | (q, n) :: t, p => if q = p then eraseFs t p else (q, n) :: eraseFs t p

/-- Create or overwrite the node stored at a path. -/
def insertFs (fs : Fs) (p : Path) (n : Node) : Fs :=
  (p, n) :: eraseFs fs p

theorem lookupFs_insert_self (fs : Fs) (p : Path) (n : Node) :
    lookupFs (insertFs fs p n) p = some n := by
  simp [insertFs, lookupFs]

theorem lookupFs_erase_ne (fs : Fs) (p q : Path) (h : p ≠ q) :
    lookupFs (eraseFs fs p) q = lookupFs fs q := by
  induction fs with
  | nil => rfl
  | cons e t ih =>
    simp only [eraseFs, lookupFs]
    by_cases he : e.1 = p
    · have hnq : ¬ e.1 = q := fun hc => h (he ▸ hc ▸ rfl)
      rw [if_pos he, if_neg hnq, ih]
    · rw [if_neg he]
      by_cases hq : e.1 = q
      · simp only [lookupFs, if_pos hq]
      · simp only [lookupFs, if_neg hq, ih]

theorem lookupFs_insert_ne (fs : Fs) (p q : Path) (n : Node) (h : p ≠ q) :
    lookupFs (insertFs fs p n) q = lookupFs fs q := by
  simp only [insertFs, lookupFs, if_neg h]
  exact lookupFs_erase_ne fs p q h

/-! ## Path arithmetic

`applySegs base segs` is `filepath.Clean(base + "/" + strings.Join(segs, "/"))`
for an absolute `base`: `..` pops one segment (and is a no-op at the root,
as `Clean` of an absolute path drops leading `..`), `.` and empty segments
vanish, and ordinary segments are appended. -/

def applySegs (base : Path) (segs : List Seg) : Path :=
  segs.foldl
    (fun acc s =>
      if s = ".." then acc.dropLast
      else if s = "." then acc
      else if s = "" then acc
      else acc ++ [s])
    base

/-- Core of `strings.Split(s, "/")`, written over the character list so
that it evaluates inside the kernel. -/
def splitSegsAux : List Char → List Char → List String
  | [], acc => [String.mk acc.reverse]
  | c :: cs, acc =>
    if c = '/' then String.mk acc.reverse :: splitSegsAux cs []
    else splitSegsAux cs (c :: acc)

/-- Split a slash-separated path string into segments (`strings.Split(s, "/")`,
which is also what `filepath.ToSlash`+split does on Linux). -/
def splitPath (s : String) : List Seg := splitSegsAux s.data []

/-- `strings.Join(parts, "/")`. -/
def joinSegs : List Seg → String
  | [] => ""
  | [s] => s
  | s :: rest => s ++ "/" ++ joinSegs rest

/-- `filepath.Join(base, rel)` for an absolute `base` given as segments and a
relative (or absolute: Join treats a leading `/` like a separator) string. -/
def joinRel (base : Path) (rel : String) : Path :=
  applySegs base (splitPath rel)

/-- `filepath.IsAbs` on Linux: the path begins with a slash. -/
def isAbsStr (s : String) : Bool :=
  match s.data with
  | c :: _ => c = '/'
  | [] => false

/-- `util.StripPathComponents` from `internal/util`: remove `n` leading
components; empty result means the caller must skip the entry. -/
def StripPathComponents (path : String) (n : Nat) : String :=
  if n = 0 then path
  else
    let parts := splitPath path
    if n ≥ parts.length then ""
    else joinSegs (parts.drop n)

/-- `util.IsPathSafe`: after cleaning, the candidate must equal the
destination or extend it by at least one full segment.  On the segment model
both cases collapse to list-prefix. -/
def IsPathSafe (path destDir : Path) : Bool := destDir.isPrefixOf path

theorem isPathSafe_iff (p dest : Path) :
    IsPathSafe p dest = true ↔ ∃ t, p = dest ++ t := by
  unfold IsPathSafe
  induction dest generalizing p with
  | nil => simp [List.isPrefixOf]
  | cons d ds ih =>
    cases p with
    | nil => simp [List.isPrefixOf]
    | cons a as =>
      simp only [List.isPrefixOf, Bool.and_eq_true, beq_iff_eq, List.cons_append,
        List.cons.injEq, ih]
      constructor
      · rintro ⟨rfl, t, rfl⟩; exact ⟨t, rfl, rfl⟩
      · rintro ⟨t, rfl, rfl⟩; exact ⟨rfl, t, rfl⟩

/-! ## Extraction errors

One constructor per distinct error return of the extraction code; the
constructor names follow the Go error messages. -/

inductive XErr where
  | slip              -- "tar slip detected" / "zip slip detected"
  | invalidSize       -- "invalid file size"
  | sizeLimit         -- "extraction exceeded maximum size limit"
  | incompleteEntry   -- "incomplete file ...: wrote %d of %d bytes"
  | symlinkEscape     -- "symlink escape detected"
  | hardlinkEscape    -- "hard link escape detected"
  | deferredEscape    -- "hard link escape detected (deferred)"
  | targetNotFound    -- "hard link target not found"
  | notDir            -- MkdirAll hitting an existing non-directory
  | createFailed      -- OpenFile on an existing directory
  | targetTooLong     -- "symlink target too long"
deriving DecidableEq

/-- `os.MkdirAll(path, 0755)`: create every missing component of `p` as a
directory with mode `0755`; existing directories are left untouched
(idempotent); an existing non-directory component is an error.  (Go would
follow a symlink component; the model treats it as the error case, which no
claim exercises.) -/
def mkdirAllAux (fs : Fs) (pref : Path) : List Seg → Fs × Option XErr
  | [] => (fs, none)
  | s :: rest =>
    let q := pref ++ [s]
    match lookupFs fs q with
    | none => mkdirAllAux (insertFs fs q (.dir 0o755)) q rest
    | some (.dir _) => mkdirAllAux fs q rest
    | some _ => (fs, some .notDir)

def mkdirAll (fs : Fs) (p : Path) : Fs × Option XErr :=
  mkdirAllAux fs [] p

theorem mkdirAllAux_err (fs : Fs) (pref : Path) (rest : List Seg) :
    (mkdirAllAux fs pref rest).2 = none ∨ (mkdirAllAux fs pref rest).2 = some .notDir := by
  induction rest generalizing fs pref with
  | nil => exact Or.inl rfl
  | cons s rest ih =>
    simp only [mkdirAllAux]
    match lookupFs fs (pref ++ [s]) with
    | none => exact ih _ _
    | some (.dir _) => exact ih _ _
    | some (.file _ _) => exact Or.inr rfl
    | some (.symlink _) => exact Or.inr rfl
    | some (.hardlink _) => exact Or.inr rfl

/-- `mkdirAll fs p` only ever touches paths of length at most `p.length`, so
any strictly longer path keeps its node. -/
theorem mkdirAllAux_lookup_long (fs : Fs) (pref : Path) (rest : List Seg) (q : Path)
    (hq : pref.length + rest.length < q.length) :
    lookupFs (mkdirAllAux fs pref rest).1 q = lookupFs fs q := by
  induction rest generalizing fs pref with
  | nil => rfl
  | cons s rest ih =>
    simp only [mkdirAllAux]
    have hlen : (pref ++ [s]).length + rest.length < q.length := by
      simp only [List.length_append, List.length_cons, List.length_nil] at hq ⊢
      omega
    have hne : pref ++ [s] ≠ q := by
      intro hc
      rw [← hc] at hlen
      simp only [List.length_append, List.length_cons, List.length_nil] at hlen
      omega
    match lookupFs fs (pref ++ [s]) with
    | none => rw [ih _ _ hlen, lookupFs_insert_ne _ _ _ _ hne]
    | some (.dir _) => exact ih _ _ hlen
    | some (.file _ _) => rfl
    | some (.symlink _) => rfl
    | some (.hardlink _) => rfl

theorem mkdirAll_lookup_long (fs : Fs) (p q : Path) (hq : p.length < q.length) :
    lookupFs (mkdirAll fs p).1 q = lookupFs fs q :=
  mkdirAllAux_lookup_long fs [] p q (by simpa using hq)

/-- Successful `mkdirAll` creates a previously absent `p` as a `0755` dir. -/
theorem mkdirAllAux_creates (fs : Fs) (pref : Path) (rest : List Seg)
    (hne : rest ≠ [])
    (hok : (mkdirAllAux fs pref rest).2 = none)
    (habsent : lookupFs fs (pref ++ rest) = none) :
    lookupFs (mkdirAllAux fs pref rest).1 (pref ++ rest) = some (.dir 0o755) := by
  induction rest generalizing fs pref with
  | nil => exact absurd rfl hne
  | cons s rest ih =>
    cases rest with
    | nil =>
      simp only [mkdirAllAux]
      cases hl : lookupFs fs (pref ++ [s]) with
      | none =>
        simp only [mkdirAllAux]
        exact lookupFs_insert_self fs (pref ++ [s]) (.dir 0o755)
      | some nd =>
        cases nd with
        | dir m =>
          have : lookupFs fs (pref ++ [s]) = none := habsent
          rw [hl] at this
          exact absurd this (by simp)
        | file a b =>
          simp only [mkdirAllAux, hl] at hok
          exact Option.noConfusion hok
        | symlink t =>
          simp only [mkdirAllAux, hl] at hok
          exact Option.noConfusion hok
        | hardlink t =>
          simp only [mkdirAllAux, hl] at hok
          exact Option.noConfusion hok
    | cons s2 rest2 =>
      have hassoc : pref ++ s :: s2 :: rest2 = (pref ++ [s]) ++ s2 :: rest2 := by simp
      rw [hassoc] at habsent ⊢
      simp only [mkdirAllAux] at hok ⊢
      cases hl : lookupFs fs (pref ++ [s]) with
      | none =>
        rw [hl] at hok
        refine ih _ _ (by simp) hok ?_
        rw [lookupFs_insert_ne]
        · exact habsent
        · intro hc
          have := congrArg List.length hc
          simp at this
      | some nd =>
        cases nd with
        | dir m =>
          rw [hl] at hok
          exact ih _ _ (by simp) hok habsent
        | file a b => rw [hl] at hok; exact absurd hok (by simp)
        | symlink t => rw [hl] at hok; exact absurd hok (by simp)
        | hardlink t => rw [hl] at hok; exact absurd hok (by simp)

theorem mkdirAll_creates (fs : Fs) (p : Path) (hne : p ≠ [])
    (hok : (mkdirAll fs p).2 = none) (habsent : lookupFs fs p = none) :
    lookupFs (mkdirAll fs p).1 p = some (.dir 0o755) := by
  have := mkdirAllAux_creates fs [] p hne hok (by simpa using habsent)
  simpa using this

/-- `mkdirAll` creates only `0755` directories: every path either keeps its
old node or now holds a `dir 0o755`. -/
theorem mkdirAllAux_lookup_cases (fs : Fs) (pref : Path) (rest : List Seg) (q : Path) :
    lookupFs (mkdirAllAux fs pref rest).1 q = lookupFs fs q ∨
      lookupFs (mkdirAllAux fs pref rest).1 q = some (.dir 0o755) := by
  induction rest generalizing fs pref with
  | nil => exact Or.inl rfl
  | cons s rest ih =>
    simp only [mkdirAllAux]
    match lookupFs fs (pref ++ [s]) with
    | none =>
      rcases ih (insertFs fs (pref ++ [s]) (.dir 0o755)) (pref ++ [s]) with h | h
      · by_cases hq : pref ++ [s] = q
        · subst hq
          rw [h, lookupFs_insert_self]
          exact Or.inr rfl
        · rw [h, lookupFs_insert_ne _ _ _ _ hq]
          exact Or.inl rfl
      · exact Or.inr h
    | some (.dir _) => exact ih _ _
    | some (.file _ _) => exact Or.inl rfl
    | some (.symlink _) => exact Or.inl rfl
    | some (.hardlink _) => exact Or.inl rfl

theorem mkdirAll_lookup_cases (fs : Fs) (p q : Path) :
    lookupFs (mkdirAll fs p).1 q = lookupFs fs q ∨
      lookupFs (mkdirAll fs p).1 q = some (.dir 0o755) :=
  mkdirAllAux_lookup_cases fs [] p q

/-! ## Tar extractor (`extractTar` in `internal/archive/extract.go`)

One entry of the tar stream.  `avail` models how many bytes the tar reader
actually yields for this entry's payload (`io.CopyN(outFile, tr, header.Size)`
stops early when the stream is truncated); it is a property of the stream,
not a header field. -/

inductive TypeFlag where
  | dir | reg | symlink | link | other
deriving DecidableEq

structure TarEntry where
  name : String
  typeflag : TypeFlag
  size : Int
  mode : Nat
  linkname : String
  avail : Nat
deriving DecidableEq

structure ExtractOptions where
  StripComponents : Nat
  MaxBytes : Int
deriving DecidableEq

/-- Mutable state of one `extractTar` call: the filesystem, the running
`extracted` byte total, the `pendingLinks` queue, and the set of paths
registered with the cleanup tracker. -/
structure TarState where
  fs : Fs
  extracted : Int
  pending : List (Path × Path)
  tracked : List Path
deriving DecidableEq

/-- `tracker.Register`. -/
def register (tracked : List Path) (p : Path) : List Path := p :: tracked

/-- `tracker.Unregister`. -/
def unregister (tracked : List Path) (p : Path) : List Path :=
  tracked.filter (fun q => ! (q == p))

/-- Does the path currently hold a directory?  (`os.OpenFile` with
`O_WRONLY|O_CREATE|O_TRUNC` fails on a directory.) -/
def isDirAt (fs : Fs) (p : Path) : Bool :=
  match lookupFs fs p with
  | some (.dir _) => true
  | _ => false

/-- Tail of the `tar.TypeSymlink` case, after the target has (or has not)
been stripped: validate `Join(Dir(destPath), linkname)`, remove any existing
node, create parents, then `os.Symlink(linkname, destPath)` — the stored
target is the unmodified `linkname` string. -/
def tarSymlinkFinish (destDir : Path) (s : TarState) (destPath : Path) (linkname : String) :
    TarState × Option XErr :=
  let targetPath := joinRel destPath.dropLast linkname
  if ! IsPathSafe targetPath destDir then (s, some .symlinkEscape)
  else
    let fs1 := eraseFs s.fs destPath
    let m := mkdirAll fs1 destPath.dropLast
    if m.2.isSome then ({ s with fs := m.1 }, m.2)
    else
      ({ s with
          fs := insertFs m.1 destPath (.symlink linkname)
          tracked := register s.tracked destPath }, none)

/-- One iteration of the `extractTar` entry loop (`extract.go` lines 81-214),
for a non-cancelled context. -/
def processTarEntry (destDir : Path) (opts : ExtractOptions) (s : TarState) (h : TarEntry) :
    TarState × Option XErr :=
  let name := StripPathComponents h.name opts.StripComponents
  if name = "" then (s, none)
  else
    let destPath := joinRel destDir name
    if ! IsPathSafe destPath destDir then (s, some .slip)
    else
      match h.typeflag with
      | .dir =>
        let m := mkdirAll s.fs destPath
        ({ s with fs := m.1 }, m.2)
      | .reg =>
        if h.size < 0 then (s, some .invalidSize)
        else if opts.MaxBytes > 0 ∧ s.extracted + h.size > opts.MaxBytes then
          (s, some .sizeLimit)
        else
          let m := mkdirAll s.fs destPath.dropLast
          if m.2.isSome then ({ s with fs := m.1 }, m.2)
          else if isDirAt m.1 destPath then ({ s with fs := m.1 }, some .createFailed)
          else
            -- os.OpenFile(..., O_WRONLY|O_CREATE|O_TRUNC, 0644); then Register;
            -- then io.CopyN, which transfers min(header.Size, stream bytes).
            let tracked2 := register s.tracked destPath
            let written : Int := min h.size (h.avail : Int)
            let fs3 := insertFs m.1 destPath (.file written.toNat 0o644)
            if written ≠ h.size then
              ({ s with fs := fs3, tracked := tracked2 }, some .incompleteEntry)
            else
              let extracted2 := s.extracted + written
              if opts.MaxBytes > 0 ∧ extracted2 > opts.MaxBytes then
                ({ s with
                    fs := eraseFs fs3 destPath
                    extracted := extracted2
                    tracked := unregister tracked2 destPath }, some .sizeLimit)
              else if h.mode &&& 0o111 ≠ 0 then
                ({ s with
                    fs := insertFs fs3 destPath (.file written.toNat 0o755)
                    extracted := extracted2
                    tracked := tracked2 }, none)
              else
                ({ s with fs := fs3, extracted := extracted2, tracked := tracked2 }, none)
      | .symlink =>
        if isAbsStr h.linkname then
          tarSymlinkFinish destDir s destPath h.linkname
        else
          let linkname := StripPathComponents h.linkname opts.StripComponents
          if linkname = "" then (s, none)
          else tarSymlinkFinish destDir s destPath linkname
      | .link =>
        let linkname := StripPathComponents h.linkname opts.StripComponents
        if linkname = "" then (s, none)
        else
          let linkTarget := joinRel destDir linkname
          if ! IsPathSafe linkTarget destDir then (s, some .hardlinkEscape)
          else
            let m := mkdirAll s.fs destPath.dropLast
            if m.2.isSome then ({ s with fs := m.1 }, m.2)
            else if (lookupFs m.1 linkTarget).isSome then
              ({ s with
                  fs := insertFs m.1 destPath (.hardlink linkTarget)
                  tracked := register s.tracked destPath }, none)
            else
              ({ s with fs := m.1, pending := s.pending ++ [(destPath, linkTarget)] }, none)
      | .other => (s, none)

/-- One iteration of the deferred hard-link pass (`extract.go` lines 217-242). -/
def processPendingLink (destDir : Path) (s : TarState) (pl : Path × Path) :
    TarState × Option XErr :=
  if ! (IsPathSafe pl.1 destDir && IsPathSafe pl.2 destDir) then (s, some .deferredEscape)
  else
    let m := mkdirAll s.fs pl.1.dropLast
    if m.2.isSome then ({ s with fs := m.1 }, m.2)
    else
      match lookupFs m.1 pl.2 with
      | none => ({ s with fs := m.1 }, some .targetNotFound)
      | some _ =>
        ({ s with
            fs := insertFs m.1 pl.1 (.hardlink pl.2)
            tracked := register s.tracked pl.1 }, none)

/-- Pass 1: fold the entry stream, stopping at the first error. -/
def runTarEntries (destDir : Path) (opts : ExtractOptions) :
    List TarEntry → TarState → TarState × Option XErr
  | [], s => (s, none)
  | h :: t, s =>
    let r := processTarEntry destDir opts s h
    match r.2 with
    | some e => (r.1, some e)
    | none => runTarEntries destDir opts t r.1

/-- Pass 2: drain the pending hard-link queue. -/
def runPendingLinks (destDir : Path) :
    List (Path × Path) → TarState → TarState × Option XErr
  | [], s => (s, none)
  | pl :: t, s =>
    let r := processPendingLink destDir s pl
    match r.2 with
    | some e => (r.1, some e)
    | none => runPendingLinks destDir t r.1

/-- `extractTar`: pass 1 over the stream, then the deferred hard-link pass
over whatever the stream enqueued. -/
def extractTar (destDir : Path) (opts : ExtractOptions) (fs0 : Fs)
    (entries : List TarEntry) : TarState × Option XErr :=
  let r := runTarEntries destDir opts entries ⟨fs0, 0, [], []⟩
  match r.2 with
  | some e => (r.1, some e)
  | none => runPendingLinks destDir r.1.pending r.1

/-! ## Zip extractor (`extractZipFile` in `internal/archive`)

One entry of the central directory.  `uncompressedSize` is the attacker
controlled `f.UncompressedSize64` header field; `actualData` is how many
bytes the decompressed stream really yields; `payload` is the entry's data
interpreted as a string, which is what a symlink entry stores its target
in. -/

structure ZipEntry where
  name : String
  isDir : Bool
  isSymlink : Bool
  mode : Nat
  uncompressedSize : Nat
  actualData : Nat
  payload : String
deriving DecidableEq

/-- `const maxSymlinkTarget = 4 * 1024`. -/
def maxSymlinkTarget : Nat := 4 * 1024

structure ZipState where
  fs : Fs
  extracted : Int
  tracked : List Path
deriving DecidableEq

/-- `extractZipFile`: extract a single zip entry, for a non-cancelled
context.  Mirrors the source order: strip, slip check, dir / symlink /
regular classification; for a regular entry the parent directories are
created first, then the declared-size budget pre-check runs, then the copy
is bounded by `fileSize := int64(f.UncompressedSize64)` — `io.CopyN`
transfers `min(fileSize, actualData)` bytes — and the post-write check
compares the running total. -/
def extractZipFile (destDir : Path) (opts : ExtractOptions) (s : ZipState) (f : ZipEntry) :
    ZipState × Option XErr :=
  let name := StripPathComponents f.name opts.StripComponents
  if name = "" then (s, none)
  else
    let destPath := joinRel destDir name
    if ! IsPathSafe destPath destDir then (s, some .slip)
    else if f.isDir then
      let m := mkdirAll s.fs destPath
      ({ s with fs := m.1 }, m.2)
    else if f.isSymlink then
      -- io.LimitReader(rc, maxSymlinkTarget+1) + length check
      if f.payload.length > maxSymlinkTarget then (s, some .targetTooLong)
      else
        let finish := fun (linkname : String) =>
          let targetPath := joinRel destPath.dropLast linkname
          if ! IsPathSafe targetPath destDir then (s, some XErr.symlinkEscape)
          else
            let m := mkdirAll s.fs destPath.dropLast
            if m.2.isSome then ({ s with fs := m.1 }, m.2)
            else
              let fs2 := eraseFs m.1 destPath
              ({ s with
                  fs := insertFs fs2 destPath (.symlink linkname)
                  tracked := register s.tracked destPath }, none)
        if isAbsStr f.payload then finish f.payload
        else
          let linkname := StripPathComponents f.payload opts.StripComponents
          if linkname = "" then (s, none)
          else finish linkname
    else
      let m := mkdirAll s.fs destPath.dropLast
      if m.2.isSome then ({ s with fs := m.1 }, m.2)
      else
        let fileSize : Int := (f.uncompressedSize : Int)
        if opts.MaxBytes > 0 ∧ s.extracted + fileSize > opts.MaxBytes then
          ({ s with fs := m.1 }, some .sizeLimit)
        else if isDirAt m.1 destPath then ({ s with fs := m.1 }, some .createFailed)
        else
          let tracked2 := register s.tracked destPath
          let written : Int := min fileSize (f.actualData : Int)
          let fs3 := insertFs m.1 destPath (.file written.toNat 0o644)
          if written ≠ fileSize then
            ({ s with fs := fs3, tracked := tracked2 }, some .incompleteEntry)
          else
            let extracted2 := s.extracted + written
            if opts.MaxBytes > 0 ∧ extracted2 > opts.MaxBytes then
              ({ s with
                  fs := eraseFs fs3 destPath
                  extracted := extracted2
                  tracked := unregister tracked2 destPath }, some .sizeLimit)
            else if f.mode &&& 0o111 ≠ 0 then
              ({ s with
                  fs := insertFs fs3 destPath (.file written.toNat 0o755)
                  extracted := extracted2
                  tracked := tracked2 }, none)
            else
              ({ s with fs := fs3, extracted := extracted2, tracked := tracked2 }, none)

/-- `extractZip`: iterate the entry list, stopping at the first error. -/
def runZipEntries (destDir : Path) (opts : ExtractOptions) :
    List ZipEntry → ZipState → ZipState × Option XErr
  | [], s => (s, none)
  | f :: t, s =>
    let r := extractZipFile destDir opts s f
    match r.2 with
    | some e => (r.1, some e)
    | none => runZipEntries destDir opts t r.1

/-! ## Cancellable chunked copier (`copyWithContext` in `internal/archive`)

The copier is shallowly embedded with its observable environment made
explicit:

* `ctx i` is what `ctx.Err()` would return if polled at the start of loop
  iteration `i` (the code only actually polls when `i % 10 = 0`);
* `src i t` is what `src.Read(buf[:t])` returns at iteration `i`: a byte
  count and an optional error;
* `dst i n` is what `dst.Write(buf[:n])` returns at iteration `i`: the
  count accepted and an optional error.

The sink's contents are tracked as the trace of `(offered, accepted)` write
events, so "no further bytes are written" is observable.  The Go loop can
run forever on a source that keeps returning `(0, nil)`, so the embedding
takes fuel and returns `none` exactly when the modelled run needs more
iterations than the fuel allows. -/

inductive IOErr where
  | eof | shortWrite | canceled | deadline | readFail | writeFail
deriving DecidableEq

/-- `len(buf)` for `buf := make([]byte, 32*1024)`. -/
def copyBufSize : Nat := 32 * 1024

def copyLoop (ctx : Nat → Option IOErr) (src : Nat → Nat → Nat × Option IOErr)
    (dst : Nat → Nat → Nat × Option IOErr) (size : Int) :
    Nat → Int → Nat → List (Nat × Nat) → Option (Int × Option IOErr × List (Nat × Nat))
  | 0, _, _, _ => none
  | fuel + 1, written, iter, tr =>
    if written < size then
      match (if iter % 10 = 0 then ctx iter else none) with
      | some e => some (written, some e, tr)
      | none =>
        let toRead : Int := min (copyBufSize : Int) (size - written)
        let r := src iter toRead.toNat
        if r.1 > 0 then
          let w := dst iter r.1
          let written2 := written + (w.1 : Int)
          let tr2 := tr ++ [(r.1, w.1)]
          match w.2 with
          | some we => some (written2, some we, tr2)
          | none =>
            if w.1 ≠ r.1 then some (written2, some .shortWrite, tr2)
            else
              match r.2 with
              | some .eof => some (written2, none, tr2)
              | some e => some (written2, some e, tr2)
              | none => copyLoop ctx src dst size fuel written2 (iter + 1) tr2
        else
          match r.2 with
          | some .eof => some (written, none, tr)
          | some e => some (written, some e, tr)
          | none => copyLoop ctx src dst size fuel written (iter + 1) tr
    else
      some (written, none, tr)

/-- `copyWithContext(ctx, dst, src, size)`. -/
def copyWithContext (ctx : Nat → Option IOErr) (src : Nat → Nat → Nat × Option IOErr)
    (dst : Nat → Nat → Nat × Option IOErr) (size : Int) (fuel : Nat) :
    Option (Int × Option IOErr × List (Nat × Nat)) :=
  copyLoop ctx src dst size fuel 0 0 []

/-! ## Path safety resolver (`util.ResolvePathWithinBase`)

The Go function counts symlink substitutions upward (`symlinkDepth`,
rejecting once it exceeds 255); the embedding carries the remaining budget
`hops = 255 - symlinkDepth` instead, so `hops = 0` is exactly the 256th
substitution the source rejects.  Segment lists play the role of cleaned
absolute path strings; `filepath.Rel(cleanDest, x)` followed by the
`strings.HasPrefix(rel, "..")` rejection corresponds to the prefix test
plus `List.drop` on the segment model (segments are opaque, so a directory
literally named `..foo` — which the Go prefix test would also reject — is
outside the model).  A restart that lands exactly on the root behaves like
the initial `rel == "."` case and returns the root. -/

inductive RErr where
  | escape          -- "path escapes destination"
  | symlinkEscape   -- "symlink escape detected"
  | relEscape       -- "symlink resolution escapes destination"
  | tooManyLinks    -- "too many symlinks while resolving"
deriving DecidableEq

/-- Result of walking segments from a cursor until the loop would end or the
first symlink is hit: either the loop's final answer, or the symlink event
(cursor after joining the symlink's own segment, its target string, and the
remaining original segments). -/
inductive WalkRes where
  | final (r : Except RErr Path)
  | link (resolved2 : Path) (tgt : String) (rest : List Seg)

/-- The body of the `for i := 0; i < len(parts); i++` loop between symlink
substitutions: join one segment, `Lstat` it, stop on a missing node (the
path may be created later), dispatch to the symlink handling, or continue. -/
def walkSegs (fs : Fs) : List Seg → Path → WalkRes
  | [], resolved => .final (.ok resolved)
  | part :: rest, resolved =>
    let resolved2 := applySegs resolved [part]
    match lookupFs fs resolved2 with
    | none => .final (.ok (applySegs resolved2 rest))
    | some (.symlink tgt) => .link resolved2 tgt rest
    | some _ => walkSegs fs rest resolved2

/-- The symlink-substitution loop of `ResolvePathWithinBase`.  The Go code
counts substitutions upward (`symlinkDepth`, rejecting once it exceeds 255);
the embedding carries the remaining budget `hops = 255 - symlinkDepth`, so
`hops = 0` is exactly the 256th substitution the source rejects: read the
symlink's target, absolutize it against the symlink's parent directory,
reject an escaping target, and either finish (no remaining segments) or
restart the segment walk from the root on the recombined relative path. -/
def resolveLoop (fs : Fs) (dest : Path) : Nat → List Seg → Path → Except RErr Path
  | hops, parts, resolved =>
    match walkSegs fs parts resolved with
    | .final r => r
    | .link resolved2 tgt rest =>
      match hops with
      | 0 => .error .tooManyLinks
      | hops2 + 1 =>
        let targetPath :=
          if isAbsStr tgt then applySegs [] (splitPath tgt)
          else applySegs resolved2.dropLast (splitPath tgt)
        if ! IsPathSafe targetPath dest then .error .symlinkEscape
        else if rest = [] then .ok targetPath
        else
          let combined := applySegs targetPath rest
          if IsPathSafe combined dest then
            resolveLoop fs dest hops2 (combined.drop dest.length) dest
          else .error .relEscape

/-- `util.ResolvePathWithinBase(path, destDir)`: reject unsafe candidates up
front, then walk the relative remainder segment by segment from the root.
(`filepath.Rel` + the `strings.HasPrefix(rel, "..")` rejection correspond to
the prefix test plus `List.drop` on the segment model; segments are opaque,
so a directory literally named `..foo` — which the Go prefix test would also
reject — is outside the model.  A restart that lands exactly on the root
behaves like the initial `rel == "."` case and returns the root.) -/
def ResolvePathWithinBase (fs : Fs) (p destDir : Path) : Except RErr Path :=
  if ! IsPathSafe p destDir then .error .escape
  else resolveLoop fs destDir 255 (p.drop destDir.length) destDir

/-- No `..` segment (the form of a cleaned path below the root). -/
def NoUp (l : List Seg) : Prop := ∀ s ∈ l, s ≠ ".."

/-- A literal segment: one that `Clean` would keep as-is. -/
def PlainSeg (s : Seg) : Prop := s ≠ ".." ∧ s ≠ "." ∧ s ≠ ""

instance : DecidablePred PlainSeg := fun s => by
  unfold PlainSeg; infer_instance

instance (l : List Seg) : Decidable (NoUp l) := by
  unfold NoUp; infer_instance

theorem applySegs_cons (base : Path) (s : Seg) (segs : List Seg) :
    applySegs base (s :: segs) =
      applySegs
        (if s = ".." then base.dropLast
         else if s = "." then base else if s = "" then base else base ++ [s]) segs := by
  simp only [applySegs, List.foldl_cons]

theorem applySegs_plain_single (base : Path) (s : Seg) (hs : PlainSeg s) :
    applySegs base [s] = base ++ [s] := by
  obtain ⟨h1, h2, h3⟩ := hs
  simp only [applySegs, List.foldl_cons, List.foldl_nil, if_neg h1, if_neg h2, if_neg h3]

theorem applySegs_noUp_extends (segs : List Seg) (base : Path) (h : NoUp segs) :
    ∃ t, applySegs base segs = base ++ t := by
  induction segs generalizing base with
  | nil => exact ⟨[], by simp [applySegs]⟩
  | cons s segs ih =>
    have hs : s ≠ ".." := h s (by simp)
    have hrest : NoUp segs := fun x hx => h x (by simp [hx])
    rw [applySegs_cons, if_neg hs]
    by_cases h2 : s = "."
    · rw [if_pos h2]; exact ih base hrest
    · rw [if_neg h2]
      by_cases h3 : s = ""
      · rw [if_pos h3]; exact ih base hrest
      · rw [if_neg h3]
        obtain ⟨t, ht⟩ := ih (base ++ [s]) hrest
        exact ⟨[s] ++ t, by simp [ht]⟩

theorem noUp_dropLast (l : Path) (h : NoUp l) : NoUp l.dropLast :=
  fun s hs => h s (List.dropLast_subset l hs)

theorem noUp_drop (l : Path) (n : Nat) (h : NoUp l) : NoUp (l.drop n) :=
  fun s hs => h s (List.drop_subset n l hs)

theorem applySegs_noUp_out (segs : List Seg) (base : Path) (h : NoUp base) :
    NoUp (applySegs base segs) := by
  induction segs generalizing base with
  | nil => exact h
  | cons s segs ih =>
    rw [applySegs_cons]
    by_cases h1 : s = ".."
    · rw [if_pos h1]; exact ih _ (noUp_dropLast base h)
    · rw [if_neg h1]
      by_cases h2 : s = "."
      · rw [if_pos h2]; exact ih _ h
      · rw [if_neg h2]
        by_cases h3 : s = ""
        · rw [if_pos h3]; exact ih _ h
        · rw [if_neg h3]
          refine ih _ (fun x hx => ?_)
          rcases List.mem_append.mp hx with hx | hx
          · exact h x hx
          · rw [List.mem_singleton.mp hx]; exact h1

theorem isPathSafe_append (dest t : Path) : IsPathSafe (dest ++ t) dest = true :=
  (isPathSafe_iff _ _).mpr ⟨t, rfl⟩

/-- A segment walk that ends without hitting a symlink answers `ok` with a
path extending the start cursor. -/
theorem walkSegs_final_inv (fs : Fs) (parts : List Seg) (resolved : Path)
    (res : Except RErr Path) (hparts : NoUp parts)
    (hw : walkSegs fs parts resolved = .final res) :
    ∃ r, res = .ok r ∧ ∃ t, r = resolved ++ t := by
  induction parts generalizing resolved with
  | nil =>
    simp only [walkSegs, WalkRes.final.injEq] at hw
    exact ⟨resolved, hw.symm, [], by simp⟩
  | cons part rest ih =>
    have hpart : NoUp [part] := fun s hs => hparts s (by
      rw [List.mem_singleton.mp hs]; simp)
    have hrest : NoUp rest := fun s hs => hparts s (by simp [hs])
    simp only [walkSegs] at hw
    cases hl : lookupFs fs (applySegs resolved [part]) with
    | none =>
      rw [hl] at hw
      simp only [WalkRes.final.injEq] at hw
      obtain ⟨t1, ht1⟩ := applySegs_noUp_extends [part] resolved hpart
      obtain ⟨t2, ht2⟩ := applySegs_noUp_extends rest (applySegs resolved [part]) hrest
      exact ⟨_, hw.symm, t1 ++ t2, by rw [ht2, ht1, List.append_assoc]⟩
    | some nd =>
      rw [hl] at hw
      cases nd with
      | symlink tgt => exact absurd hw (by simp)
      | dir m =>
        obtain ⟨r, hr, t, ht⟩ := ih (applySegs resolved [part]) hrest hw
        obtain ⟨t1, ht1⟩ := applySegs_noUp_extends [part] resolved hpart
        exact ⟨r, hr, t1 ++ t, by rw [ht, ht1, List.append_assoc]⟩
      | file a b =>
        obtain ⟨r, hr, t, ht⟩ := ih (applySegs resolved [part]) hrest hw
        obtain ⟨t1, ht1⟩ := applySegs_noUp_extends [part] resolved hpart
        exact ⟨r, hr, t1 ++ t, by rw [ht, ht1, List.append_assoc]⟩
      | hardlink t0 =>
        obtain ⟨r, hr, t, ht⟩ := ih (applySegs resolved [part]) hrest hw
        obtain ⟨t1, ht1⟩ := applySegs_noUp_extends [part] resolved hpart
        exact ⟨r, hr, t1 ++ t, by rw [ht, ht1, List.append_assoc]⟩

/-- When the walk hits a symlink, the remaining segments are still free of
`..`, and the cursor extends the start (keeping its `..`-freedom). -/
theorem walkSegs_link_inv (fs : Fs) (parts : List Seg) (resolved resolved2 : Path)
    (tgt : String) (rest : List Seg) (hparts : NoUp parts) (hres : NoUp resolved)
    (hw : walkSegs fs parts resolved = .link resolved2 tgt rest) :
    NoUp rest ∧ NoUp resolved2 ∧ ∃ t, resolved2 = resolved ++ t := by
  induction parts generalizing resolved with
  | nil => exact absurd hw (by simp [walkSegs])
  | cons part tl ih =>
    have hpart : NoUp [part] := fun s hs => hparts s (by
      rw [List.mem_singleton.mp hs]; simp)
    have htl : NoUp tl := fun s hs => hparts s (by simp [hs])
    have hres2 : NoUp (applySegs resolved [part]) := applySegs_noUp_out _ _ hres
    simp only [walkSegs] at hw
    cases hl : lookupFs fs (applySegs resolved [part]) with
    | none => rw [hl] at hw; exact absurd hw (by simp)
    | some nd =>
      rw [hl] at hw
      cases nd with
      | symlink tgt2 =>
        simp only [WalkRes.link.injEq] at hw
        obtain ⟨h1, h2, h3⟩ := hw
        subst h1; subst h3
        obtain ⟨t1, ht1⟩ := applySegs_noUp_extends [part] resolved hpart
        exact ⟨htl, hres2, t1, ht1⟩
      | dir m =>
        obtain ⟨h1, h2, t, ht⟩ := ih (applySegs resolved [part]) htl hres2 hw
        obtain ⟨t1, ht1⟩ := applySegs_noUp_extends [part] resolved hpart
        exact ⟨h1, h2, t1 ++ t, by rw [ht, ht1, List.append_assoc]⟩
      | file a b =>
        obtain ⟨h1, h2, t, ht⟩ := ih (applySegs resolved [part]) htl hres2 hw
        obtain ⟨t1, ht1⟩ := applySegs_noUp_extends [part] resolved hpart
        exact ⟨h1, h2, t1 ++ t, by rw [ht, ht1, List.append_assoc]⟩
      | hardlink t0 =>
        obtain ⟨h1, h2, t, ht⟩ := ih (applySegs resolved [part]) htl hres2 hw
        obtain ⟨t1, ht1⟩ := applySegs_noUp_extends [part] resolved hpart
        exact ⟨h1, h2, t1 ++ t, by rw [ht, ht1, List.append_assoc]⟩

theorem resolveLoop_eq_final (fs : Fs) (dest : Path) (hops : Nat) (parts : List Seg)
    (resolved : Path) (res : Except RErr Path)
    (hw : walkSegs fs parts resolved = .final res) :
    resolveLoop fs dest hops parts resolved = res := by
  simp only [resolveLoop, hw]

theorem resolveLoop_eq_link_zero (fs : Fs) (dest : Path) (parts : List Seg)
    (resolved resolved2 : Path) (tgt : String) (rest : List Seg)
    (hw : walkSegs fs parts resolved = .link resolved2 tgt rest) :
    resolveLoop fs dest 0 parts resolved = .error .tooManyLinks := by
  simp only [resolveLoop, hw]

theorem resolveLoop_link_badTarget (fs : Fs) (dest : Path) (hops2 : Nat) (parts : List Seg)
    (resolved resolved2 : Path) (tgt : String) (rest : List Seg)
    (hw : walkSegs fs parts resolved = .link resolved2 tgt rest)
    (hsafe : IsPathSafe
        (if isAbsStr tgt then applySegs [] (splitPath tgt)
         else applySegs resolved2.dropLast (splitPath tgt)) dest = false) :
    resolveLoop fs dest (hops2 + 1) parts resolved = .error .symlinkEscape := by
  rw [resolveLoop, hw]
  simp only [hsafe, Bool.not_false, if_true]

theorem resolveLoop_link_last (fs : Fs) (dest : Path) (hops2 : Nat) (parts : List Seg)
    (resolved resolved2 : Path) (tgt : String) (rest : List Seg)
    (hw : walkSegs fs parts resolved = .link resolved2 tgt rest)
    (hsafe : IsPathSafe
        (if isAbsStr tgt then applySegs [] (splitPath tgt)
         else applySegs resolved2.dropLast (splitPath tgt)) dest = true)
    (hnil : rest = []) :
    resolveLoop fs dest (hops2 + 1) parts resolved =
      .ok (if isAbsStr tgt then applySegs [] (splitPath tgt)
           else applySegs resolved2.dropLast (splitPath tgt)) := by
  rw [resolveLoop, hw]
  simp [hsafe, hnil]

theorem resolveLoop_link_restart (fs : Fs) (dest : Path) (hops2 : Nat) (parts : List Seg)
    (resolved resolved2 : Path) (tgt : String) (rest : List Seg)
    (hw : walkSegs fs parts resolved = .link resolved2 tgt rest)
    (hsafe : IsPathSafe
        (if isAbsStr tgt then applySegs [] (splitPath tgt)
         else applySegs resolved2.dropLast (splitPath tgt)) dest = true)
    (hnil : rest ≠ [])
    (hcomb : IsPathSafe
        (applySegs
          (if isAbsStr tgt then applySegs [] (splitPath tgt)
           else applySegs resolved2.dropLast (splitPath tgt)) rest) dest = true) :
    resolveLoop fs dest (hops2 + 1) parts resolved =
      resolveLoop fs dest hops2
        ((applySegs
            (if isAbsStr tgt then applySegs [] (splitPath tgt)
             else applySegs resolved2.dropLast (splitPath tgt)) rest).drop dest.length)
        dest := by
  rw [resolveLoop, hw]
  simp only [hsafe, hcomb, Bool.not_true, Bool.false_eq_true, if_false, if_true, if_neg hnil]

theorem resolveLoop_link_relEscape (fs : Fs) (dest : Path) (hops2 : Nat) (parts : List Seg)
    (resolved resolved2 : Path) (tgt : String) (rest : List Seg)
    (hw : walkSegs fs parts resolved = .link resolved2 tgt rest)
    (hsafe : IsPathSafe
        (if isAbsStr tgt then applySegs [] (splitPath tgt)
         else applySegs resolved2.dropLast (splitPath tgt)) dest = true)
    (hnil : rest ≠ [])
    (hcomb : IsPathSafe
        (applySegs
          (if isAbsStr tgt then applySegs [] (splitPath tgt)
           else applySegs resolved2.dropLast (splitPath tgt)) rest) dest = false) :
    resolveLoop fs dest (hops2 + 1) parts resolved = .error .relEscape := by
  rw [resolveLoop, hw]
  simp only [hsafe, hcomb, Bool.not_true, Bool.false_eq_true, if_false, if_neg hnil]

/-- Soundness of the resolver loop: an `ok` answer always extends the
destination root. -/
theorem resolveLoop_ok_extends (fs : Fs) (dest : Path) (hdest : NoUp dest) :
    ∀ (hops : Nat) (parts : List Seg) (resolved r : Path),
      NoUp parts → NoUp resolved → (∃ t0, resolved = dest ++ t0) →
      resolveLoop fs dest hops parts resolved = .ok r → ∃ t, r = dest ++ t := by
  intro hops
  induction hops with
  | zero =>
    intro parts resolved r hP hR hE hrun
    cases hw : walkSegs fs parts resolved with
    | final res =>
      rw [resolveLoop_eq_final fs dest 0 parts resolved res hw] at hrun
      obtain ⟨r2, hres2, t, ht⟩ := walkSegs_final_inv fs parts resolved res hP hw
      rw [hres2] at hrun
      simp only [Except.ok.injEq] at hrun
      obtain ⟨t0, ht0⟩ := hE
      exact ⟨t0 ++ t, by rw [← hrun, ht, ht0, List.append_assoc]⟩
    | link r2 tgt rest =>
      rw [resolveLoop_eq_link_zero fs dest parts resolved r2 tgt rest hw] at hrun
      exact absurd hrun (by simp)
  | succ hops2 ih =>
    intro parts resolved r hP hR hE hrun
    cases hw : walkSegs fs parts resolved with
    | final res =>
      rw [resolveLoop_eq_final fs dest _ parts resolved res hw] at hrun
      obtain ⟨r2, hres2, t, ht⟩ := walkSegs_final_inv fs parts resolved res hP hw
      rw [hres2] at hrun
      simp only [Except.ok.injEq] at hrun
      obtain ⟨t0, ht0⟩ := hE
      exact ⟨t0 ++ t, by rw [← hrun, ht, ht0, List.append_assoc]⟩
    | link r2 tgt rest =>
      obtain ⟨hrestU, hr2U, t2, ht2⟩ := walkSegs_link_inv fs parts resolved r2 tgt rest hP hR hw
      have hTU :
          NoUp (if isAbsStr tgt then applySegs [] (splitPath tgt)
            else applySegs r2.dropLast (splitPath tgt)) := by
        by_cases habs : isAbsStr tgt
        · rw [if_pos habs]
          exact applySegs_noUp_out _ _ (fun s hs => absurd hs (List.not_mem_nil s))
        · rw [if_neg habs]
          exact applySegs_noUp_out _ _ (noUp_dropLast _ hr2U)
      by_cases hsafe :
          IsPathSafe
            (if isAbsStr tgt then applySegs [] (splitPath tgt)
             else applySegs r2.dropLast (splitPath tgt)) dest = true
      · by_cases hnil : rest = []
        · rw [resolveLoop_link_last fs dest hops2 parts resolved r2 tgt rest hw hsafe hnil]
            at hrun
          simp only [Except.ok.injEq] at hrun
          obtain ⟨t, ht⟩ := (isPathSafe_iff _ _).mp hsafe
          exact ⟨t, by rw [← hrun, ht]⟩
        · by_cases hcomb :
              IsPathSafe
                (applySegs
                  (if isAbsStr tgt then applySegs [] (splitPath tgt)
                   else applySegs r2.dropLast (splitPath tgt)) rest) dest = true
          · rw [resolveLoop_link_restart fs dest hops2 parts resolved r2 tgt rest hw hsafe
              hnil hcomb] at hrun
            refine ih _ dest r ?_ hdest ⟨[], by simp⟩ hrun
            exact noUp_drop _ _ (applySegs_noUp_out _ _ hTU)
          · rw [Bool.not_eq_true] at hcomb
            rw [resolveLoop_link_relEscape fs dest hops2 parts resolved r2 tgt rest hw hsafe
              hnil hcomb] at hrun
            exact absurd hrun (by simp)
      · rw [Bool.not_eq_true] at hsafe
        rw [resolveLoop_link_badTarget fs dest hops2 parts resolved r2 tgt rest hw hsafe] at hrun
        exact absurd hrun (by simp)

/-- Reaching the first symlink: if every strict ancestor along `pre` exists
and is not a symlink, and the node after `pre ++ [a]` is a symlink, the walk
reports exactly that symlink event. -/
theorem walkSegs_to_link (fs : Fs) :
    ∀ (pre : List Seg) (a : Seg) (tail : List Seg) (tgt : String) (resolved : Path),
      (∀ s ∈ pre ++ [a], PlainSeg s) →
      (∀ k, k < pre.length →
        ∃ nd, lookupFs fs (resolved ++ pre.take (k + 1)) = some nd ∧
          ∀ t2, nd ≠ .symlink t2) →
      lookupFs fs (resolved ++ pre ++ [a]) = some (.symlink tgt) →
      walkSegs fs (pre ++ a :: tail) resolved = .link (resolved ++ pre ++ [a]) tgt tail := by
  intro pre
  induction pre with
  | nil =>
    intro a tail tgt resolved hplain hanc hsym
    have ha : PlainSeg a := hplain a (by simp)
    have hr2 : applySegs resolved [a] = resolved ++ [a] := applySegs_plain_single _ _ ha
    simp only [List.nil_append, List.append_nil] at hsym ⊢
    simp only [walkSegs, hr2, hsym]
  | cons p0 pre2 ih =>
    intro a tail tgt resolved hplain hanc hsym
    have hp0 : PlainSeg p0 := hplain p0 (by simp)
    have hr2 : applySegs resolved [p0] = resolved ++ [p0] := applySegs_plain_single _ _ hp0
    obtain ⟨nd, hnd, hndsym⟩ := hanc 0 (by simp)
    have hnd0 : lookupFs fs (resolved ++ [p0]) = some nd := by
      simpa using hnd
    have hrec :
        walkSegs fs (pre2 ++ a :: tail) (resolved ++ [p0]) =
          .link ((resolved ++ [p0]) ++ pre2 ++ [a]) tgt tail := by
      refine ih a tail tgt (resolved ++ [p0]) (fun s hs => hplain s (by
        rcases List.mem_append.mp hs with hs | hs
        · exact List.mem_append.mpr (Or.inl (by simp [hs]))
        · exact List.mem_append.mpr (Or.inr hs))) ?_ ?_
      · intro k hk
        obtain ⟨nd2, hnd2, hnd2sym⟩ := hanc (k + 1) (by simp; omega)
        refine ⟨nd2, ?_, hnd2sym⟩
        rw [← hnd2]
        congr 1
        simp [List.take_cons, List.append_assoc]
      · rw [← hsym]
        congr 1
        simp [List.append_assoc]
    have hgoal :
        (resolved ++ [p0]) ++ pre2 ++ [a] = resolved ++ (p0 :: pre2) ++ [a] := by
      simp
    rw [hgoal] at hrec
    cases nd with
    | symlink t2 => exact absurd rfl (hndsym t2)
    | dir m =>
      simp only [List.cons_append, walkSegs, hr2, hnd0]
      exact hrec
    | file sz md =>
      simp only [List.cons_append, walkSegs, hr2, hnd0]
      exact hrec
    | hardlink t0 =>
      simp only [List.cons_append, walkSegs, hr2, hnd0]
      exact hrec

/-! ## Claim theorems -/

/-- C3: for every candidate write path whose resolution passes through a
pre-existing symlink ancestor inside the destination tree that points
outside the root, `ResolvePathWithinBase` fails with a path-escape error
("symlink escape detected"), at any nesting depth (`pre` arbitrary) — the
first symlink met is within the 255-hop budget — and, complementarily,
every path the resolver accepts is a descendant of the destination root,
so every filesystem write target validated through it stays inside the
root. -/
theorem claim_C3 :
    (∀ (fs : Fs) (dest : Path) (pre : List Seg) (a : Seg) (tail : List Seg) (tgt : String),
      (∀ s ∈ pre ++ [a], PlainSeg s) →
      (∀ k, k < pre.length →
        ∃ nd, lookupFs fs (dest ++ pre.take (k + 1)) = some nd ∧ ∀ t2, nd ≠ .symlink t2) →
      lookupFs fs (dest ++ pre ++ [a]) = some (.symlink tgt) →
      IsPathSafe
        (if isAbsStr tgt then applySegs [] (splitPath tgt)
         else applySegs (dest ++ pre ++ [a]).dropLast (splitPath tgt)) dest = false →
      ResolvePathWithinBase fs (dest ++ (pre ++ a :: tail)) dest = .error .symlinkEscape)
    ∧ (∀ (fs : Fs) (dest p r : Path), NoUp dest → NoUp p →
        ResolvePathWithinBase fs p dest = .ok r → ∃ t, r = dest ++ t) := by
  constructor
  · intro fs dest pre a tail tgt hplain hanc hsym hesc
    unfold ResolvePathWithinBase
    rw [isPathSafe_append dest (pre ++ a :: tail)]
    simp only [Bool.not_true, Bool.false_eq_true, if_false]
    rw [List.drop_left]
    have hw := walkSegs_to_link fs pre a tail tgt dest hplain hanc hsym
    have h255 : (255 : Nat) = 254 + 1 := rfl
    rw [h255]
    exact resolveLoop_link_badTarget fs dest 254 (pre ++ a :: tail) dest
      (dest ++ pre ++ [a]) tgt tail hw hesc
  · intro fs dest p r hdest hp hrun
    unfold ResolvePathWithinBase at hrun
    by_cases hsafe : IsPathSafe p dest = true
    · rw [hsafe] at hrun
      simp only [Bool.not_true, Bool.false_eq_true, if_false] at hrun
      exact resolveLoop_ok_extends fs dest hdest 255 _ dest r
        (noUp_drop _ _ hp) hdest ⟨[], by simp⟩ hrun
    · rw [Bool.not_eq_true] at hsafe
      rw [hsafe] at hrun
      simp only [Bool.not_false, if_true] at hrun
      exact absurd hrun (by simp)

/-- Witness for C3 at a concrete filesystem: a symlink `root/lnk -> ../../etc`
planted inside the destination makes resolution of `root/lnk/x` fail with the
symlink-escape error, and a symlink-free path resolves to a descendant of the
root. -/
theorem claim_C3_witness :
    ResolvePathWithinBase [(["root", "lnk"], Node.symlink "../../etc")]
        (["root"] ++ ([] ++ "lnk" :: ["x"])) ["root"] = .error .symlinkEscape ∧
    ∃ t, (["root", "x"] : Path) = ["root"] ++ t := by
  constructor
  · exact claim_C3.1 [(["root", "lnk"], Node.symlink "../../etc")] ["root"] [] "lnk" ["x"]
      "../../etc" (by decide) (fun k hk => absurd hk (Nat.not_lt_zero k)) (by decide)
      (by decide)
  · exact claim_C3.2 [] ["root"] ["root", "x"] ["root", "x"] (by decide) (by decide)
      (by rfl)

theorem someTriple_fst {w2 w : Int} {e2 e : Option IOErr} {t2 t : List (Nat × Nat)}
    (h : (some (w2, e2, t2) : Option (Int × Option IOErr × List (Nat × Nat))) = some (w, e, t)) :
    w = w2 :=
  (congrArg Prod.fst (Option.some.inj h)).symm

/-- Byte-budget invariant of the copy loop: a terminating run never reports
more than `size` bytes written, given the `io.Reader`/`io.Writer` contracts
(`n ≤ len(p)` for reads, `nw ≤ n` for writes). -/
theorem copyLoop_le (ctx : Nat → Option IOErr) (src dst : Nat → Nat → Nat × Option IOErr)
    (size : Int) (hsrc : ∀ i t, (src i t).1 ≤ t) (hdst : ∀ i n, (dst i n).1 ≤ n) :
    ∀ (fuel : Nat) (written : Int) (iter : Nat) (tr : List (Nat × Nat))
      (w : Int) (e : Option IOErr) (tr2 : List (Nat × Nat)),
      written ≤ size →
      copyLoop ctx src dst size fuel written iter tr = some (w, e, tr2) → w ≤ size := by
  intro fuel
  induction fuel with
  | zero =>
    intro written iter tr w e tr2 hle hrun
    exact absurd hrun (by simp [copyLoop])
  | succ fuel ih =>
    intro written iter tr w e tr2 hle hrun
    simp only [copyLoop] at hrun
    by_cases hlt : written < size
    · rw [if_pos hlt] at hrun
      have hbound : written + (((dst iter (src iter
          (min (copyBufSize : Int) (size - written)).toNat).1).1 : Int)) ≤ size := by
        have h1 : (dst iter (src iter
            (min (copyBufSize : Int) (size - written)).toNat).1).1 ≤ (src iter
            (min (copyBufSize : Int) (size - written)).toNat).1 := hdst _ _
        have h2 : (src iter (min (copyBufSize : Int) (size - written)).toNat).1 ≤
            (min (copyBufSize : Int) (size - written)).toNat := hsrc _ _
        have h3 : min (copyBufSize : Int) (size - written) ≤ size - written :=
          min_le_right _ _
        have h4 := le_trans h1 h2
        omega
      cases hpoll : (if iter % 10 = 0 then ctx iter else none) with
      | some e2 =>
        rw [hpoll] at hrun
        have := someTriple_fst hrun
        omega
      | none =>
        rw [hpoll] at hrun
        simp only [] at hrun
        by_cases hn : (src iter (min (copyBufSize : Int) (size - written)).toNat).1 > 0
        · rw [if_pos hn] at hrun
          cases hq : (dst iter (src iter
              (min (copyBufSize : Int) (size - written)).toNat).1).2 with
          | some we =>
            rw [hq] at hrun
            have := someTriple_fst hrun
            omega
          | none =>
            rw [hq] at hrun
            by_cases hne : (dst iter (src iter
                (min (copyBufSize : Int) (size - written)).toNat).1).1 ≠ (src iter
                (min (copyBufSize : Int) (size - written)).toNat).1
            · rw [if_pos hne] at hrun
              have := someTriple_fst hrun
              omega
            · rw [if_neg hne] at hrun
              cases hr2 : (src iter (min (copyBufSize : Int) (size - written)).toNat).2 with
              | some e3 =>
                rw [hr2] at hrun
                cases e3 with
                | eof => have := someTriple_fst hrun; omega
                | shortWrite => have := someTriple_fst hrun; omega
                | canceled => have := someTriple_fst hrun; omega
                | deadline => have := someTriple_fst hrun; omega
                | readFail => have := someTriple_fst hrun; omega
                | writeFail => have := someTriple_fst hrun; omega
              | none =>
                rw [hr2] at hrun
                exact ih _ _ _ w e tr2 hbound hrun
        · rw [if_neg hn] at hrun
          cases hr2 : (src iter (min (copyBufSize : Int) (size - written)).toNat).2 with
          | some e3 =>
            rw [hr2] at hrun
            cases e3 with
            | eof => have := someTriple_fst hrun; omega
            | shortWrite => have := someTriple_fst hrun; omega
            | canceled => have := someTriple_fst hrun; omega
            | deadline => have := someTriple_fst hrun; omega
            | readFail => have := someTriple_fst hrun; omega
            | writeFail => have := someTriple_fst hrun; omega
          | none =>
            rw [hr2] at hrun
            exact ih _ _ _ w e tr2 hle hrun
    · rw [if_neg hlt] at hrun
      have := someTriple_fst hrun
      omega

theorem someTriple_inj {w2 w : Int} {e2 e : Option IOErr} {t2 t : List (Nat × Nat)}
    (h : (some (w2, e2, t2) : Option (Int × Option IOErr × List (Nat × Nat))) = some (w, e, t)) :
    w = w2 ∧ e = e2 ∧ t = t2 := by
  cases Option.some.inj h
  exact ⟨rfl, rfl, rfl⟩

/-- A run of the copy loop that ends without error contains no short write:
every `(offered, accepted)` event in its trace is a full write. -/
theorem copyLoop_none_full (ctx : Nat → Option IOErr) (src dst : Nat → Nat → Nat × Option IOErr)
    (size : Int) :
    ∀ (fuel : Nat) (written : Int) (iter : Nat) (tr : List (Nat × Nat))
      (w : Int) (tr2 : List (Nat × Nat)),
      (∀ p ∈ tr, p.2 = p.1) →
      copyLoop ctx src dst size fuel written iter tr = some (w, none, tr2) →
      ∀ p ∈ tr2, p.2 = p.1 := by
  intro fuel
  induction fuel with
  | zero =>
    intro written iter tr w tr2 htr hrun
    exact absurd hrun (by simp [copyLoop])
  | succ fuel ih =>
    intro written iter tr w tr2 htr hrun
    simp only [copyLoop] at hrun
    by_cases hlt : written < size
    · rw [if_pos hlt] at hrun
      cases hpoll : (if iter % 10 = 0 then ctx iter else none) with
      | some e2 =>
        rw [hpoll] at hrun
        exact absurd (someTriple_inj hrun).2.1 (by simp)
      | none =>
        rw [hpoll] at hrun
        by_cases hn : (src iter (min (copyBufSize : Int) (size - written)).toNat).1 > 0
        · rw [if_pos hn] at hrun
          cases hq : (dst iter (src iter
              (min (copyBufSize : Int) (size - written)).toNat).1).2 with
          | some we =>
            rw [hq] at hrun
            exact absurd (someTriple_inj hrun).2.1 (by simp)
          | none =>
            rw [hq] at hrun
            by_cases hne : (dst iter (src iter
                (min (copyBufSize : Int) (size - written)).toNat).1).1 ≠ (src iter
                (min (copyBufSize : Int) (size - written)).toNat).1
            · rw [if_pos hne] at hrun
              exact absurd (someTriple_inj hrun).2.1 (by simp)
            · rw [if_neg hne] at hrun
              rw [not_not] at hne
              have htr2 : ∀ p ∈ tr ++ [((src iter
                  (min (copyBufSize : Int) (size - written)).toNat).1,
                  (dst iter (src iter
                    (min (copyBufSize : Int) (size - written)).toNat).1).1)], p.2 = p.1 := by
                intro p hp
                rcases List.mem_append.mp hp with hp | hp
                · exact htr p hp
                · rw [List.mem_singleton.mp hp]
                  exact hne
              cases hr2 : (src iter (min (copyBufSize : Int) (size - written)).toNat).2 with
              | some e3 =>
                rw [hr2] at hrun
                cases e3 with
                | eof =>
                  obtain ⟨-, -, h3⟩ := someTriple_inj hrun
                  exact h3 ▸ htr2
                | shortWrite => exact absurd (someTriple_inj hrun).2.1 (by simp)
                | canceled => exact absurd (someTriple_inj hrun).2.1 (by simp)
                | deadline => exact absurd (someTriple_inj hrun).2.1 (by simp)
                | readFail => exact absurd (someTriple_inj hrun).2.1 (by simp)
                | writeFail => exact absurd (someTriple_inj hrun).2.1 (by simp)
              | none =>
                rw [hr2] at hrun
                exact ih _ _ _ w tr2 htr2 hrun
        · rw [if_neg hn] at hrun
          cases hr2 : (src iter (min (copyBufSize : Int) (size - written)).toNat).2 with
          | some e3 =>
            rw [hr2] at hrun
            cases e3 with
            | eof =>
              obtain ⟨-, -, h3⟩ := someTriple_inj hrun
              exact h3 ▸ htr
            | shortWrite => exact absurd (someTriple_inj hrun).2.1 (by simp)
            | canceled => exact absurd (someTriple_inj hrun).2.1 (by simp)
            | deadline => exact absurd (someTriple_inj hrun).2.1 (by simp)
            | readFail => exact absurd (someTriple_inj hrun).2.1 (by simp)
            | writeFail => exact absurd (someTriple_inj hrun).2.1 (by simp)
          | none =>
            rw [hr2] at hrun
            exact ih _ _ _ w tr2 htr hrun
    · rw [if_neg hlt] at hrun
      obtain ⟨-, -, h3⟩ := someTriple_inj hrun
      exact h3 ▸ htr

/-- With a quiet cancellation signal, a sink that accepts everything, and a
source that fails only by reaching end-of-data, a terminating run reports no
error: source end-of-data is not an error at this layer. -/
theorem copyLoop_eof_none (ctx : Nat → Option IOErr) (src dst : Nat → Nat → Nat × Option IOErr)
    (size : Int) (hctx : ∀ i, ctx i = none)
    (hsrc2 : ∀ i t, (src i t).2 = none ∨ (src i t).2 = some .eof)
    (hdst2 : ∀ i n, dst i n = (n, none)) :
    ∀ (fuel : Nat) (written : Int) (iter : Nat) (tr : List (Nat × Nat))
      (w : Int) (e : Option IOErr) (tr2 : List (Nat × Nat)),
      copyLoop ctx src dst size fuel written iter tr = some (w, e, tr2) → e = none := by
  intro fuel
  induction fuel with
  | zero =>
    intro written iter tr w e tr2 hrun
    exact absurd hrun (by simp [copyLoop])
  | succ fuel ih =>
    intro written iter tr w e tr2 hrun
    simp only [copyLoop] at hrun
    by_cases hlt : written < size
    · rw [if_pos hlt] at hrun
      have hpoll : (if iter % 10 = 0 then ctx iter else none) = none := by
        by_cases hm : iter % 10 = 0
        · rw [if_pos hm]; exact hctx iter
        · rw [if_neg hm]
      rw [hpoll] at hrun
      have hq := hdst2 iter (src iter (min (copyBufSize : Int) (size - written)).toNat).1
      by_cases hn : (src iter (min (copyBufSize : Int) (size - written)).toNat).1 > 0
      · rw [if_pos hn] at hrun
        rw [hq] at hrun
        simp only [ne_eq, not_true_eq_false, if_false, if_neg] at hrun
        rcases hsrc2 iter (min (copyBufSize : Int) (size - written)).toNat with hr2 | hr2
        · rw [hr2] at hrun
          exact ih _ _ _ w e tr2 hrun
        · rw [hr2] at hrun
          exact (someTriple_inj hrun).2.1
      · rw [if_neg hn] at hrun
        rcases hsrc2 iter (min (copyBufSize : Int) (size - written)).toNat with hr2 | hr2
        · rw [hr2] at hrun
          exact ih _ _ _ w e tr2 hrun
        · rw [hr2] at hrun
          exact (someTriple_inj hrun).2.1
    · rw [if_neg hlt] at hrun
      exact (someTriple_inj hrun).2.1

/-- A poll that observes cancellation stops the loop at once: the partial
count and the error are returned, and the write trace is unchanged. -/
theorem copyLoop_cancel_now (ctx : Nat → Option IOErr) (src dst : Nat → Nat → Nat × Option IOErr)
    (size : Int) (fuel : Nat) (written : Int) (iter : Nat) (tr : List (Nat × Nat))
    (e2 : IOErr) (hlt : written < size) (hmod : iter % 10 = 0) (hctx : ctx iter = some e2) :
    copyLoop ctx src dst size (fuel + 1) written iter tr = some (written, some e2, tr) := by
  simp only [copyLoop, if_pos hlt, hmod, if_pos, hctx]

/-- C7: the chunked copier polls the cancellation signal at a fixed cadence —
at every iteration whose index is a multiple of 10, hence before the first
chunk — and on observing a cancelled signal it stops at once, returning the
error together with the partial byte count and writing nothing further
(first conjunct: the trace is returned unchanged).  The second conjunct
exhibits the cadence: with a signal that is cancelled from iteration 1
onward, exactly ten full 32 KiB chunks still flow, and the loop stops at
the iteration-10 poll with 327680 of the requested 400000 bytes written.
The third conjunct is the first-chunk special case of the first. -/
theorem claim_C7 :
    (∀ (ctx : Nat → Option IOErr) (src dst : Nat → Nat → Nat × Option IOErr)
      (size : Int) (fuel : Nat) (written : Int) (iter : Nat) (tr : List (Nat × Nat))
      (e2 : IOErr), written < size → iter % 10 = 0 → ctx iter = some e2 →
      copyLoop ctx src dst size (fuel + 1) written iter tr = some (written, some e2, tr))
    ∧ (∀ e2 : IOErr,
        copyWithContext (fun i => if i = 0 then none else some e2)
          (fun _ t => (t, none)) (fun _ n => (n, none)) 400000 20 =
          some (327680, some e2, List.replicate 10 (32768, 32768)))
    ∧ (∀ (ctx : Nat → Option IOErr) (src dst : Nat → Nat → Nat × Option IOErr)
        (size : Int) (fuel : Nat) (e2 : IOErr), 0 < size → ctx 0 = some e2 →
        copyWithContext ctx src dst size (fuel + 1) = some (0, some e2, [])) := by
  refine ⟨copyLoop_cancel_now, ?_, ?_⟩
  · intro e2
    rfl
  · intro ctx src dst size fuel e2 hsize hctx
    exact copyLoop_cancel_now ctx src dst size fuel 0 0 [] e2 hsize rfl hctx

/-- Witness for C7 at concrete inputs: an already-cancelled signal stops the
copier before anything is written, and the late-cancellation run delivers
exactly ten chunks. -/
theorem claim_C7_witness :
    copyWithContext (fun _ => some IOErr.canceled) (fun _ t => (t, none))
        (fun _ n => (n, none)) 10 (3 + 1) = some (0, some IOErr.canceled, []) ∧
    copyWithContext (fun i => if i = 0 then none else some IOErr.deadline)
        (fun _ t => (t, none)) (fun _ n => (n, none)) 400000 20 =
        some (327680, some IOErr.deadline, List.replicate 10 (32768, 32768)) := by
  constructor
  · exact claim_C7.2.2 (fun _ => some IOErr.canceled) (fun _ t => (t, none))
      (fun _ n => (n, none)) 10 3 IOErr.canceled (by decide) rfl
  · exact claim_C7.2.1 IOErr.deadline

/-- C8: in the chunked copier a short write from the sink is always a hard
error — equivalently, a run that ends with a nil error has only full writes
in its trace (first conjunct; a sink error is returned as-is, so the only
nil-error exits are end-of-size and end-of-data) — while the source reaching
end-of-data early is not an error at this layer: with a quiet cancellation
signal, an all-accepting sink and a source that can only end by end-of-data,
every terminating run reports a nil error alongside its (possibly partial)
byte count (second conjunct). -/
theorem claim_C8 :
    (∀ (ctx : Nat → Option IOErr) (src dst : Nat → Nat → Nat × Option IOErr)
      (size : Int) (fuel : Nat) (w : Int) (tr2 : List (Nat × Nat)),
      copyWithContext ctx src dst size fuel = some (w, none, tr2) →
      ∀ p ∈ tr2, p.2 = p.1)
    ∧ (∀ (ctx : Nat → Option IOErr) (src dst : Nat → Nat → Nat × Option IOErr)
        (size : Int) (fuel : Nat) (w : Int) (e : Option IOErr) (tr2 : List (Nat × Nat)),
        (∀ i, ctx i = none) →
        (∀ i t, (src i t).2 = none ∨ (src i t).2 = some IOErr.eof) →
        (∀ i n, dst i n = (n, none)) →
        copyWithContext ctx src dst size fuel = some (w, e, tr2) → e = none) := by
  constructor
  · intro ctx src dst size fuel w tr2 hrun
    exact copyLoop_none_full ctx src dst size fuel 0 0 [] w tr2 (by simp) hrun
  · intro ctx src dst size fuel w e tr2 hctx hsrc2 hdst2 hrun
    exact copyLoop_eof_none ctx src dst size hctx hsrc2 hdst2 fuel 0 0 [] w e tr2 hrun

/-- Witness for C8: a three-byte source under a 100-byte limit ends with a
nil error after a full-write trace. -/
theorem claim_C8_witness :
    (∀ p ∈ [((3 : Nat), (3 : Nat))], p.2 = p.1) ∧ (none : Option IOErr) = none := by
  constructor
  · exact claim_C8.1 (fun _ => none)
      (fun i t => if i = 0 then (min 3 t, some IOErr.eof) else (0, some IOErr.eof))
      (fun _ n => (n, none)) 100 3 3 [(3, 3)] (by rfl)
  · exact claim_C8.2 (fun _ => none)
      (fun i t => if i = 0 then (min 3 t, some IOErr.eof) else (0, some IOErr.eof))
      (fun _ n => (n, none)) 100 3 3 none [(3, 3)]
      (fun i => rfl)
      (fun i t => Or.inr (by by_cases h : i = 0 <;> simp [h]))
      (fun i n => rfl) (by rfl)

/-- C10: the chunked copier never reports more than `size` bytes written:
for a non-negative size and any source/sink obeying the `io.Reader` and
`io.Writer` contracts (a read returns at most the requested count, a write
accepts at most what was offered), every terminating run — success,
cancellation, or error — returns a byte count bounded by `size`. -/
theorem claim_C10 (ctx : Nat → Option IOErr) (src dst : Nat → Nat → Nat × Option IOErr)
    (size : Int) (fuel : Nat) (w : Int) (e : Option IOErr) (tr : List (Nat × Nat))
    (hsrc : ∀ i t, (src i t).1 ≤ t) (hdst : ∀ i n, (dst i n).1 ≤ n) (hsize : 0 ≤ size)
    (hrun : copyWithContext ctx src dst size fuel = some (w, e, tr)) : w ≤ size :=
  copyLoop_le ctx src dst size hsrc hdst fuel 0 0 [] w e tr hsize hrun

/-- Witness for C10 at a concrete five-byte copy. -/
theorem claim_C10_witness : (5 : Int) ≤ 5 :=
  claim_C10 (fun _ => none) (fun _ t => (t, none)) (fun _ n => (n, none)) 5 3 5 none
    [(5, 5)] (fun i t => le_refl t) (fun i n => le_refl n) (by decide) (by rfl)

theorem splitSegsAux_ne_nil (cs acc : List Char) : splitSegsAux cs acc ≠ [] := by
  induction cs generalizing acc with
  | nil => simp [splitSegsAux]
  | cons c cs ih =>
    simp only [splitSegsAux]
    by_cases hc : c = '/'
    · rw [if_pos hc]; simp
    · rw [if_neg hc]; exact ih _

theorem splitPath_length_pos (s : String) : 1 ≤ (splitPath s).length := by
  have := splitSegsAux_ne_nil s.data []
  unfold splitPath
  cases h : splitSegsAux s.data [] with
  | nil => exact absurd h this
  | cons a l => simp

/-- C6: `StripPathComponents` returns the empty string exactly on the
entries the extractors must skip — whenever the strip count reaches the
segment count — and the remaining suffix (rejoined on `/`) otherwise; and
both the tar and the zip entry loop turn an empty stripped name into a
no-op: the state is returned unchanged with no error, so the entry has no
filesystem effect. -/
theorem claim_C6 :
    (∀ (path : String) (n : Nat), (splitPath path).length ≤ n →
      StripPathComponents path n = "")
    ∧ (∀ (path : String), StripPathComponents path 0 = path)
    ∧ (∀ (path : String) (n : Nat), 1 ≤ n → n < (splitPath path).length →
      StripPathComponents path n = joinSegs ((splitPath path).drop n))
    ∧ (∀ (destDir : Path) (opts : ExtractOptions) (s : TarState) (h : TarEntry),
        StripPathComponents h.name opts.StripComponents = "" →
        processTarEntry destDir opts s h = (s, none))
    ∧ (∀ (destDir : Path) (opts : ExtractOptions) (s : ZipState) (f : ZipEntry),
        StripPathComponents f.name opts.StripComponents = "" →
        extractZipFile destDir opts s f = (s, none)) := by
  refine ⟨?_, ?_, ?_, ?_, ?_⟩
  · intro path n hn
    have h1 := splitPath_length_pos path
    have hn0 : n ≠ 0 := by omega
    unfold StripPathComponents
    rw [if_neg hn0, if_pos hn]
  · intro path
    unfold StripPathComponents
    rw [if_pos rfl]
  · intro path n h1 h2
    have hn0 : n ≠ 0 := by omega
    unfold StripPathComponents
    rw [if_neg hn0, if_neg (by omega)]
  · intro destDir opts s h hname
    unfold processTarEntry
    rw [hname, if_pos rfl]
  · intro destDir opts s f hname
    unfold extractZipFile
    rw [hname, if_pos rfl]

/-- Witness for C6: `a/b/c` stripped by 3 empties (and by 1 gives `b/c`),
and a fully-stripped tar entry leaves the state untouched. -/
theorem claim_C6_witness :
    StripPathComponents "a/b/c" 3 = "" ∧
    StripPathComponents "a/b/c" 1 = joinSegs ((splitPath "a/b/c").drop 1) ∧
    processTarEntry ["d"] ⟨3, 0⟩ ⟨[], 0, [], []⟩
        { name := "a/b/c", typeflag := .reg, size := 1, mode := 0, linkname := "",
          avail := 1 } =
      (⟨[], 0, [], []⟩, none) := by
  refine ⟨?_, ?_, ?_⟩
  · exact claim_C6.1 "a/b/c" 3 (by decide)
  · exact claim_C6.2.2.1 "a/b/c" 1 (by decide) (by decide)
  · exact claim_C6.2.2.2.1 ["d"] ⟨3, 0⟩ ⟨[], 0, [], []⟩
      { name := "a/b/c", typeflag := .reg, size := 1, mode := 0, linkname := "",
        avail := 1 } (by decide)

theorem eraseFs_idem (fs : Fs) (p : Path) : eraseFs (eraseFs fs p) p = eraseFs fs p := by
  induction fs with
  | nil => rfl
  | cons e t ih =>
    by_cases he : e.1 = p
    · simp only [eraseFs, if_pos he, ih]
    · simp only [eraseFs, if_neg he, ih]

theorem insertFs_insertFs (fs : Fs) (p : Path) (a b : Node) :
    insertFs (insertFs fs p a) p b = insertFs fs p b := by
  simp [insertFs, eraseFs, eraseFs_idem]

/-- C9: filesystem output modes.  Directories are created with mode `0755`
(tar and zip); regular files are created with mode `0644` and promoted to
`0755` exactly when the source entry's mode carries an executable bit (tar
and zip); a symlink is created as a bare `Node.symlink` and a hard link as
a bare `Node.hardlink` — constructors without a mode field, mirroring
`os.Symlink` and `os.Link`, which take no mode argument. -/
theorem claim_C9 :
    (∀ (destDir : Path) (opts : ExtractOptions) (s : TarState) (h : TarEntry) (name2 : String),
      h.typeflag = .dir →
      StripPathComponents h.name opts.StripComponents = name2 → name2 ≠ "" →
      IsPathSafe (joinRel destDir name2) destDir = true →
      (mkdirAll s.fs (joinRel destDir name2)).2 = none →
      joinRel destDir name2 ≠ [] →
      lookupFs s.fs (joinRel destDir name2) = none →
      (processTarEntry destDir opts s h).2 = none ∧
      lookupFs (processTarEntry destDir opts s h).1.fs (joinRel destDir name2) =
        some (.dir 0o755))
    ∧ (∀ (destDir : Path) (opts : ExtractOptions) (s : TarState) (h : TarEntry) (name2 : String),
        h.typeflag = .reg →
        StripPathComponents h.name opts.StripComponents = name2 → name2 ≠ "" →
        IsPathSafe (joinRel destDir name2) destDir = true →
        0 ≤ h.size →
        ¬(opts.MaxBytes > 0 ∧ s.extracted + h.size > opts.MaxBytes) →
        (mkdirAll s.fs (joinRel destDir name2).dropLast).2 = none →
        isDirAt (mkdirAll s.fs (joinRel destDir name2).dropLast).1 (joinRel destDir name2)
          = false →
        h.size ≤ (h.avail : Int) →
        (processTarEntry destDir opts s h).2 = none ∧
        lookupFs (processTarEntry destDir opts s h).1.fs (joinRel destDir name2) =
          some (.file h.size.toNat (if h.mode &&& 0o111 ≠ 0 then 0o755 else 0o644)))
    ∧ (∀ (destDir : Path) (s : TarState) (destPath : Path) (linkname : String),
        IsPathSafe (joinRel destPath.dropLast linkname) destDir = true →
        (mkdirAll (eraseFs s.fs destPath) destPath.dropLast).2 = none →
        (tarSymlinkFinish destDir s destPath linkname).2 = none ∧
        lookupFs (tarSymlinkFinish destDir s destPath linkname).1.fs destPath =
          some (.symlink linkname))
    ∧ (∀ (destDir : Path) (opts : ExtractOptions) (s : TarState) (h : TarEntry)
        (name2 link2 : String),
        h.typeflag = .link →
        StripPathComponents h.name opts.StripComponents = name2 → name2 ≠ "" →
        IsPathSafe (joinRel destDir name2) destDir = true →
        StripPathComponents h.linkname opts.StripComponents = link2 → link2 ≠ "" →
        IsPathSafe (joinRel destDir link2) destDir = true →
        (mkdirAll s.fs (joinRel destDir name2).dropLast).2 = none →
        (lookupFs (mkdirAll s.fs (joinRel destDir name2).dropLast).1
          (joinRel destDir link2)).isSome = true →
        (processTarEntry destDir opts s h).2 = none ∧
        lookupFs (processTarEntry destDir opts s h).1.fs (joinRel destDir name2) =
          some (.hardlink (joinRel destDir link2)))
    ∧ (∀ (destDir : Path) (opts : ExtractOptions) (s : ZipState) (f : ZipEntry) (name2 : String),
        f.isDir = true →
        StripPathComponents f.name opts.StripComponents = name2 → name2 ≠ "" →
        IsPathSafe (joinRel destDir name2) destDir = true →
        (mkdirAll s.fs (joinRel destDir name2)).2 = none →
        joinRel destDir name2 ≠ [] →
        lookupFs s.fs (joinRel destDir name2) = none →
        (extractZipFile destDir opts s f).2 = none ∧
        lookupFs (extractZipFile destDir opts s f).1.fs (joinRel destDir name2) =
          some (.dir 0o755))
    ∧ (∀ (destDir : Path) (opts : ExtractOptions) (s : ZipState) (f : ZipEntry) (name2 : String),
        f.isDir = false → f.isSymlink = false →
        StripPathComponents f.name opts.StripComponents = name2 → name2 ≠ "" →
        IsPathSafe (joinRel destDir name2) destDir = true →
        ¬(opts.MaxBytes > 0 ∧ s.extracted + (f.uncompressedSize : Int) > opts.MaxBytes) →
        (mkdirAll s.fs (joinRel destDir name2).dropLast).2 = none →
        isDirAt (mkdirAll s.fs (joinRel destDir name2).dropLast).1 (joinRel destDir name2)
          = false →
        f.uncompressedSize ≤ f.actualData →
        (extractZipFile destDir opts s f).2 = none ∧
        lookupFs (extractZipFile destDir opts s f).1.fs (joinRel destDir name2) =
          some (.file f.uncompressedSize (if f.mode &&& 0o111 ≠ 0 then 0o755 else 0o644))) := by
  refine ⟨?_, ?_, ?_, ?_, ?_, ?_⟩
  · intro destDir opts s h name2 htype hname hne hsafe hmk hnil habs
    have hstep : processTarEntry destDir opts s h =
        ({ s with fs := (mkdirAll s.fs (joinRel destDir name2)).1 },
          (mkdirAll s.fs (joinRel destDir name2)).2) := by
      unfold processTarEntry
      simp only [hname, htype, hsafe, Bool.not_true, Bool.false_eq_true, if_false,
        if_neg hne]
    rw [hstep]
    exact ⟨hmk, mkdirAll_creates s.fs _ hnil hmk habs⟩
  · intro destDir opts s h name2 htype hname hne hsafe hsz hpre hmk hdirat hav
    have hwr : min h.size ((h.avail : Nat) : Int) = h.size := min_eq_left hav
    have hstep :
        processTarEntry destDir opts s h =
          (if h.mode &&& 0o111 ≠ 0 then
            ({ s with
                fs := insertFs (mkdirAll s.fs (joinRel destDir name2).dropLast).1
                  (joinRel destDir name2) (.file h.size.toNat 0o755)
                extracted := s.extracted + h.size
                tracked := register s.tracked (joinRel destDir name2) }, none)
          else
            ({ s with
                fs := insertFs (mkdirAll s.fs (joinRel destDir name2).dropLast).1
                  (joinRel destDir name2) (.file h.size.toNat 0o644)
                extracted := s.extracted + h.size
                tracked := register s.tracked (joinRel destDir name2) }, none)) := by
      unfold processTarEntry
      simp only [hname, htype, hsafe, Bool.not_true, Bool.false_eq_true, if_false,
        if_neg hne, if_neg (not_lt.mpr hsz), if_neg hpre, hmk, Option.isSome_none,
        hdirat, hwr, if_neg (not_not.mpr (rfl : h.size = h.size))]
      by_cases hex : h.mode &&& 0o111 ≠ 0
      · rw [if_pos hex, if_pos hex, insertFs_insertFs]
      · rw [if_neg hex, if_neg hex]
    rw [hstep]
    by_cases hex : h.mode &&& 0o111 ≠ 0
    · rw [if_pos hex, if_pos hex]
      exact ⟨rfl, lookupFs_insert_self _ _ _⟩
    · rw [if_neg hex, if_neg hex]
      exact ⟨rfl, lookupFs_insert_self _ _ _⟩
  · intro destDir s destPath linkname hsafe hmk
    have hstep : tarSymlinkFinish destDir s destPath linkname =
        ({ s with
            fs := insertFs (mkdirAll (eraseFs s.fs destPath) destPath.dropLast).1
              destPath (.symlink linkname)
            tracked := register s.tracked destPath }, none) := by
      unfold tarSymlinkFinish
      simp only [hsafe, Bool.not_true, Bool.false_eq_true, if_false, hmk,
        Option.isSome_none]
    rw [hstep]
    exact ⟨rfl, lookupFs_insert_self _ _ _⟩
  · intro destDir opts s h name2 link2 htype hname hne hsafe hlink hlne hlsafe hmk hexists
    have hstep : processTarEntry destDir opts s h =
        ({ s with
            fs := insertFs (mkdirAll s.fs (joinRel destDir name2).dropLast).1
              (joinRel destDir name2) (.hardlink (joinRel destDir link2))
            tracked := register s.tracked (joinRel destDir name2) }, none) := by
      unfold processTarEntry
      simp only [hname, htype, hsafe, hlink, hlsafe, Bool.not_true, Bool.false_eq_true,
        if_false, if_neg hne, if_neg hlne, hmk, Option.isSome_none, hexists, if_true]
    rw [hstep]
    exact ⟨rfl, lookupFs_insert_self _ _ _⟩
  · intro destDir opts s f name2 hdir hname hne hsafe hmk hnil habs
    have hstep : extractZipFile destDir opts s f =
        ({ s with fs := (mkdirAll s.fs (joinRel destDir name2)).1 },
          (mkdirAll s.fs (joinRel destDir name2)).2) := by
      unfold extractZipFile
      simp only [hname, hdir, hsafe, Bool.not_true, Bool.false_eq_true, if_false,
        if_neg hne, if_true]
    rw [hstep]
    exact ⟨hmk, mkdirAll_creates s.fs _ hnil hmk habs⟩
  · intro destDir opts s f name2 hdir hsym hname hne hsafe hpre hmk hdirat hav
    have hav2 : ((f.uncompressedSize : Nat) : Int) ≤ ((f.actualData : Nat) : Int) := by
      exact_mod_cast hav
    have hwr : min ((f.uncompressedSize : Nat) : Int) ((f.actualData : Nat) : Int) =
        ((f.uncompressedSize : Nat) : Int) := min_eq_left hav2
    have hstep :
        extractZipFile destDir opts s f =
          (if f.mode &&& 0o111 ≠ 0 then
            ({ s with
                fs := insertFs (mkdirAll s.fs (joinRel destDir name2).dropLast).1
                  (joinRel destDir name2) (.file f.uncompressedSize 0o755)
                extracted := s.extracted + (f.uncompressedSize : Int)
                tracked := register s.tracked (joinRel destDir name2) }, none)
          else
            ({ s with
                fs := insertFs (mkdirAll s.fs (joinRel destDir name2).dropLast).1
                  (joinRel destDir name2) (.file f.uncompressedSize 0o644)
                extracted := s.extracted + (f.uncompressedSize : Int)
                tracked := register s.tracked (joinRel destDir name2) }, none)) := by
      unfold extractZipFile
      simp only [hname, hdir, hsym, hsafe, Bool.not_true, Bool.false_eq_true, if_false,
        if_neg hne, hmk, Option.isSome_none, hdirat, hwr, if_neg hpre,
        if_neg (not_not.mpr (rfl : ((f.uncompressedSize : Nat) : Int)
          = ((f.uncompressedSize : Nat) : Int))), Int.toNat_natCast]
      by_cases hex : f.mode &&& 0o111 ≠ 0
      · rw [if_pos hex, if_pos hex, insertFs_insertFs]
      · rw [if_neg hex, if_neg hex]
    rw [hstep]
    by_cases hex : f.mode &&& 0o111 ≠ 0
    · rw [if_pos hex, if_pos hex]
      exact ⟨rfl, lookupFs_insert_self _ _ _⟩
    · rw [if_neg hex, if_neg hex]
      exact ⟨rfl, lookupFs_insert_self _ _ _⟩

/-- Witness for C9 at concrete entries: a directory lands as `dir 0755`, an
executable regular file as `file 0755`, and a symlink as a bare
`Node.symlink` with its target string. -/
theorem claim_C9_witness :
    ((processTarEntry ["d"] ⟨0, 0⟩ ⟨[], 0, [], []⟩
        { name := "sub", typeflag := .dir, size := 0, mode := 0, linkname := "",
          avail := 0 }).2 = none ∧
      lookupFs (processTarEntry ["d"] ⟨0, 0⟩ ⟨[], 0, [], []⟩
        { name := "sub", typeflag := .dir, size := 0, mode := 0, linkname := "",
          avail := 0 }).1.fs (joinRel ["d"] "sub") = some (.dir 0o755)) ∧
    ((processTarEntry ["d"] ⟨0, 0⟩ ⟨[], 0, [], []⟩
        { name := "bin/tool", typeflag := .reg, size := 4, mode := 0o755, linkname := "",
          avail := 4 }).2 = none ∧
      lookupFs (processTarEntry ["d"] ⟨0, 0⟩ ⟨[], 0, [], []⟩
        { name := "bin/tool", typeflag := .reg, size := 4, mode := 0o755, linkname := "",
          avail := 4 }).1.fs (joinRel ["d"] "bin/tool") =
        some (.file (4 : Int).toNat (if 0o755 &&& 0o111 ≠ 0 then 0o755 else 0o644))) ∧
    ((tarSymlinkFinish ["d"] ⟨[], 0, [], []⟩ ["d", "ln"] "t").2 = none ∧
      lookupFs (tarSymlinkFinish ["d"] ⟨[], 0, [], []⟩ ["d", "ln"] "t").1.fs ["d", "ln"] =
        some (.symlink "t")) := by
  refine ⟨?_, ?_, ?_⟩
  · exact claim_C9.1 ["d"] ⟨0, 0⟩ ⟨[], 0, [], []⟩
      { name := "sub", typeflag := .dir, size := 0, mode := 0, linkname := "", avail := 0 }
      "sub" rfl (by rfl) (by decide) (by decide) (by decide) (by decide) (by decide)
  · exact claim_C9.2.1 ["d"] ⟨0, 0⟩ ⟨[], 0, [], []⟩
      { name := "bin/tool", typeflag := .reg, size := 4, mode := 0o755, linkname := "",
        avail := 4 }
      "bin/tool" rfl (by rfl) (by decide) (by decide) (by decide) (by decide) (by decide)
      (by decide) (by decide)
  · exact claim_C9.2.2.1 ["d"] ⟨[], 0, [], []⟩ ["d", "ln"] "t" (by decide) (by decide)

theorem mkdirAll_err (fs : Fs) (p : Path) :
    (mkdirAll fs p).2 = none ∨ (mkdirAll fs p).2 = some .notDir :=
  mkdirAllAux_err fs [] p

theorem tarSymlinkFinish_no_tnf (destDir : Path) (s : TarState) (destPath : Path)
    (linkname : String) :
    (tarSymlinkFinish destDir s destPath linkname).2 ≠ some XErr.targetNotFound := by
  unfold tarSymlinkFinish
  by_cases hsafe : IsPathSafe (joinRel destPath.dropLast linkname) destDir = true
  · simp only [hsafe, Bool.not_true, Bool.false_eq_true, if_false]
    rcases mkdirAll_err (eraseFs s.fs destPath) destPath.dropLast with hmk | hmk
    · simp [hmk]
    · simp [hmk]
  · rw [Bool.not_eq_true] at hsafe
    simp [hsafe]

/-- During pass 1 no entry ever produces the deferred-link error: the
`TargetNotFound` condition is only reachable from the second pass, i.e.
after the whole stream has been consumed. -/
theorem processTarEntry_no_tnf (destDir : Path) (opts : ExtractOptions) (s : TarState)
    (h : TarEntry) : (processTarEntry destDir opts s h).2 ≠ some XErr.targetNotFound := by
  unfold processTarEntry
  by_cases h1 : StripPathComponents h.name opts.StripComponents = ""
  · simp [h1]
  · rw [if_neg h1]
    by_cases h2 : IsPathSafe
        (joinRel destDir (StripPathComponents h.name opts.StripComponents)) destDir = true
    · simp only [h2, Bool.not_true, Bool.false_eq_true, if_false]
      cases ht : h.typeflag with
      | dir =>
        dsimp only
        rcases mkdirAll_err s.fs
            (joinRel destDir (StripPathComponents h.name opts.StripComponents)) with hmk | hmk
        · simp [hmk]
        · simp [hmk]
      | reg =>
        dsimp only
        by_cases h3 : h.size < 0
        · simp [h3]
        · rw [if_neg h3]
          by_cases h4 : opts.MaxBytes > 0 ∧ s.extracted + h.size > opts.MaxBytes
          · simp [h4]
          · rw [if_neg h4]
            rcases mkdirAll_err s.fs
                (joinRel destDir
                  (StripPathComponents h.name opts.StripComponents)).dropLast with hmk | hmk
            · simp only [hmk, Option.isSome_none, Bool.false_eq_true, if_false]
              by_cases h5 : isDirAt (mkdirAll s.fs
                  (joinRel destDir
                    (StripPathComponents h.name opts.StripComponents)).dropLast).1
                  (joinRel destDir (StripPathComponents h.name opts.StripComponents)) = true
              · simp [h5]
              · rw [Bool.not_eq_true] at h5
                simp only [h5, Bool.false_eq_true, if_false]
                by_cases h6 : min h.size ((h.avail : Nat) : Int) ≠ h.size
                · simp [h6]
                · rw [if_neg h6]
                  by_cases h7 : opts.MaxBytes > 0 ∧
                      s.extracted + min h.size ((h.avail : Nat) : Int) > opts.MaxBytes
                  · simp [h7]
                  · rw [if_neg h7]
                    by_cases h8 : h.mode &&& 0o111 ≠ 0
                    · simp [h8]
                    · simp [h8]
            · simp [hmk]
      | symlink =>
        dsimp only
        by_cases h3 : isAbsStr h.linkname = true
        · simp only [h3, if_true]
          exact tarSymlinkFinish_no_tnf destDir s _ h.linkname
        · rw [Bool.not_eq_true] at h3
          simp only [h3, Bool.false_eq_true, if_false]
          by_cases h4 : StripPathComponents h.linkname opts.StripComponents = ""
          · simp [h4]
          · rw [if_neg h4]
            exact tarSymlinkFinish_no_tnf destDir s _ _
      | link =>
        dsimp only
        by_cases h3 : StripPathComponents h.linkname opts.StripComponents = ""
        · simp [h3]
        · rw [if_neg h3]
          by_cases h4 : IsPathSafe
              (joinRel destDir (StripPathComponents h.linkname opts.StripComponents))
              destDir = true
          · simp only [h4, Bool.not_true, Bool.false_eq_true, if_false]
            rcases mkdirAll_err s.fs
                (joinRel destDir
                  (StripPathComponents h.name opts.StripComponents)).dropLast with hmk | hmk
            · simp only [hmk, Option.isSome_none, Bool.false_eq_true, if_false]
              by_cases h5 : (lookupFs (mkdirAll s.fs
                  (joinRel destDir
                    (StripPathComponents h.name opts.StripComponents)).dropLast).1
                  (joinRel destDir
                    (StripPathComponents h.linkname opts.StripComponents))).isSome = true
              · simp [h5]
              · rw [Bool.not_eq_true] at h5
                simp [h5]
            · simp [hmk]
          · rw [Bool.not_eq_true] at h4
            simp [h4]
      | other =>
        dsimp only
        simp
    · rw [Bool.not_eq_true] at h2
      simp [h2]

/-- C5: deferred tar hard links.  (1) In pass 1, a hard-link entry whose
resolved target does not yet exist on disk only appends to the pending
queue — the destination path's node is untouched, so no link is
materialized before its target exists.  (2) No pass-1 step can produce
`TargetNotFound`: that error is surfaced only by the second pass, after the
full stream is consumed.  (3) In pass 2, a pending link whose target still
does not exist fails with `TargetNotFound`, and one whose target exists is
created as a hard link.  (4) `extractTar` runs the pending queue exactly
when pass 1 consumed every entry without error.  (5) A concrete stream in
which the link's target entry appears later succeeds and materializes the
link; (6) one whose target never appears fails with `TargetNotFound`. -/
theorem claim_C5 :
    (∀ (destDir : Path) (opts : ExtractOptions) (s : TarState) (h : TarEntry)
      (name2 link2 : String),
      h.typeflag = .link →
      StripPathComponents h.name opts.StripComponents = name2 → name2 ≠ "" →
      IsPathSafe (joinRel destDir name2) destDir = true →
      StripPathComponents h.linkname opts.StripComponents = link2 → link2 ≠ "" →
      IsPathSafe (joinRel destDir link2) destDir = true →
      (mkdirAll s.fs (joinRel destDir name2).dropLast).2 = none →
      lookupFs (mkdirAll s.fs (joinRel destDir name2).dropLast).1 (joinRel destDir link2)
        = none →
      joinRel destDir name2 ≠ [] →
      processTarEntry destDir opts s h =
        ({ s with
            fs := (mkdirAll s.fs (joinRel destDir name2).dropLast).1
            pending := s.pending ++ [(joinRel destDir name2, joinRel destDir link2)] },
          none) ∧
      lookupFs (processTarEntry destDir opts s h).1.fs (joinRel destDir name2) =
        lookupFs s.fs (joinRel destDir name2))
    ∧ (∀ (destDir : Path) (opts : ExtractOptions) (s : TarState) (h : TarEntry),
        (processTarEntry destDir opts s h).2 ≠ some XErr.targetNotFound)
    ∧ (∀ (destDir : Path) (s : TarState) (pl : Path × Path),
        IsPathSafe pl.1 destDir = true → IsPathSafe pl.2 destDir = true →
        (mkdirAll s.fs pl.1.dropLast).2 = none →
        (lookupFs (mkdirAll s.fs pl.1.dropLast).1 pl.2 = none →
          processPendingLink destDir s pl =
            ({ s with fs := (mkdirAll s.fs pl.1.dropLast).1 }, some .targetNotFound)) ∧
        (∀ nd, lookupFs (mkdirAll s.fs pl.1.dropLast).1 pl.2 = some nd →
          processPendingLink destDir s pl =
            ({ s with
                fs := insertFs (mkdirAll s.fs pl.1.dropLast).1 pl.1 (.hardlink pl.2)
                tracked := register s.tracked pl.1 }, none) ∧
          lookupFs (processPendingLink destDir s pl).1.fs pl.1 = some (.hardlink pl.2)))
    ∧ (∀ (destDir : Path) (opts : ExtractOptions) (fs0 : Fs) (entries : List TarEntry),
        (runTarEntries destDir opts entries ⟨fs0, 0, [], []⟩).2 = none →
        extractTar destDir opts fs0 entries =
          runPendingLinks destDir
            (runTarEntries destDir opts entries ⟨fs0, 0, [], []⟩).1.pending
            (runTarEntries destDir opts entries ⟨fs0, 0, [], []⟩).1)
    ∧ ((extractTar ["d"] ⟨0, 0⟩ []
          [{ name := "b", typeflag := .link, size := 0, mode := 0, linkname := "a",
             avail := 0 },
           { name := "a", typeflag := .reg, size := 2, mode := 0, linkname := "",
             avail := 2 }]).2 = none ∧
        lookupFs (extractTar ["d"] ⟨0, 0⟩ []
          [{ name := "b", typeflag := .link, size := 0, mode := 0, linkname := "a",
             avail := 0 },
           { name := "a", typeflag := .reg, size := 2, mode := 0, linkname := "",
             avail := 2 }]).1.fs ["d", "b"] = some (.hardlink ["d", "a"]))
    ∧ ((extractTar ["d"] ⟨0, 0⟩ []
          [{ name := "b", typeflag := .link, size := 0, mode := 0, linkname := "a",
             avail := 0 }]).2 = some XErr.targetNotFound) := by
  refine ⟨?_, processTarEntry_no_tnf, ?_, ?_, by decide, by decide⟩
  · intro destDir opts s h name2 link2 htype hname hne hsafe hlink hlne hlsafe hmk hlook hnil
    have hstep : processTarEntry destDir opts s h =
        ({ s with
            fs := (mkdirAll s.fs (joinRel destDir name2).dropLast).1
            pending := s.pending ++ [(joinRel destDir name2, joinRel destDir link2)] },
          none) := by
      unfold processTarEntry
      simp only [hname, htype, hsafe, hlink, hlsafe, Bool.not_true, Bool.false_eq_true,
        if_false, if_neg hne, if_neg hlne, hmk, Option.isSome_none, hlook,
        Option.isSome_none]
    refine ⟨hstep, ?_⟩
    rw [hstep]
    refine mkdirAll_lookup_long s.fs _ _ ?_
    rw [List.length_dropLast]
    have : 0 < (joinRel destDir name2).length := List.length_pos.mpr hnil
    omega
  · intro destDir s pl hsafe1 hsafe2 hmk
    have hcond : (IsPathSafe pl.1 destDir && IsPathSafe pl.2 destDir) = true := by
      rw [hsafe1, hsafe2]; rfl
    constructor
    · intro hlook
      unfold processPendingLink
      simp only [hcond, Bool.not_true, Bool.false_eq_true, if_false, hmk,
        Option.isSome_none, hlook]
    · intro nd hlook
      have hstep : processPendingLink destDir s pl =
          ({ s with
              fs := insertFs (mkdirAll s.fs pl.1.dropLast).1 pl.1 (.hardlink pl.2)
              tracked := register s.tracked pl.1 }, none) := by
        unfold processPendingLink
        simp only [hcond, Bool.not_true, Bool.false_eq_true, if_false, hmk,
          Option.isSome_none, hlook]
      refine ⟨hstep, ?_⟩
      rw [hstep]
      exact lookupFs_insert_self _ _ _
  · intro destDir opts fs0 entries hok
    unfold extractTar
    simp only [hok]

/-- Witness for C5: a hard link `b -> a` read before `a` exists defers into
the pending queue without touching `b`. -/
theorem claim_C5_witness :
    processTarEntry ["d"] ⟨0, 0⟩ ⟨[], 0, [], []⟩
        { name := "b", typeflag := .link, size := 0, mode := 0, linkname := "a",
          avail := 0 } =
      ({ fs := (mkdirAll ([] : Fs) (joinRel ["d"] "b").dropLast).1, extracted := 0,
         pending := [] ++ [(joinRel ["d"] "b", joinRel ["d"] "a")], tracked := [] },
        none) ∧
    lookupFs (processTarEntry ["d"] ⟨0, 0⟩ ⟨[], 0, [], []⟩
        { name := "b", typeflag := .link, size := 0, mode := 0, linkname := "a",
          avail := 0 }).1.fs (joinRel ["d"] "b") = lookupFs ([] : Fs) (joinRel ["d"] "b") :=
  claim_C5.1 ["d"] ⟨0, 0⟩ ⟨[], 0, [], []⟩
    { name := "b", typeflag := .link, size := 0, mode := 0, linkname := "a", avail := 0 }
    "b" "a" rfl (by rfl) (by decide) (by decide) (by rfl) (by decide) (by decide)
    (by decide) (by decide) (by decide)

/-- C4 counterexample: a tar regular-file entry declaring 100 bytes whose
stream yields only 50 fails with the incomplete-entry error, yet the partial
50-byte file is still present on disk (and still registered with the
cleanup tracker) when the extractor returns — the claim's "partial
destination file is deleted before returning" is false at this input.  (The
code closes the file and returns; only the size-limit path calls
`os.Remove`.) -/
theorem claim_C4_counterexample :
    (processTarEntry ["d"] ⟨0, 0⟩ ⟨[], 0, [], []⟩
        { name := "f", typeflag := .reg, size := 100, mode := 0, linkname := "",
          avail := 50 }).2 = some XErr.incompleteEntry ∧
    lookupFs (processTarEntry ["d"] ⟨0, 0⟩ ⟨[], 0, [], []⟩
        { name := "f", typeflag := .reg, size := 100, mode := 0, linkname := "",
          avail := 50 }).1.fs ["d", "f"] = some (.file 50 0o644) ∧
    ["d", "f"] ∈ (processTarEntry ["d"] ⟨0, 0⟩ ⟨[], 0, [], []⟩
        { name := "f", typeflag := .reg, size := 100, mode := 0, linkname := "",
          avail := 50 }).1.tracked := by
  refine ⟨by decide, by decide, by decide⟩

/-- C4 (amended): for every regular-file entry (tar or zip), if the bytes
copied fall short of the declared size, extraction fails with an
`IncompleteEntry` error; the partial destination file is closed and left in
place — still registered with the cleanup tracker — rather than deleted
before returning. -/
theorem claim_C4 :
    (∀ (destDir : Path) (opts : ExtractOptions) (s : TarState) (h : TarEntry)
      (name2 : String),
      h.typeflag = .reg →
      StripPathComponents h.name opts.StripComponents = name2 → name2 ≠ "" →
      IsPathSafe (joinRel destDir name2) destDir = true →
      0 ≤ h.size →
      ¬(opts.MaxBytes > 0 ∧ s.extracted + h.size > opts.MaxBytes) →
      (mkdirAll s.fs (joinRel destDir name2).dropLast).2 = none →
      isDirAt (mkdirAll s.fs (joinRel destDir name2).dropLast).1 (joinRel destDir name2)
        = false →
      ((h.avail : Nat) : Int) < h.size →
      (processTarEntry destDir opts s h).2 = some XErr.incompleteEntry ∧
      lookupFs (processTarEntry destDir opts s h).1.fs (joinRel destDir name2) =
        some (.file h.avail 0o644) ∧
      joinRel destDir name2 ∈ (processTarEntry destDir opts s h).1.tracked)
    ∧ (∀ (destDir : Path) (opts : ExtractOptions) (s : ZipState) (f : ZipEntry)
        (name2 : String),
        f.isDir = false → f.isSymlink = false →
        StripPathComponents f.name opts.StripComponents = name2 → name2 ≠ "" →
        IsPathSafe (joinRel destDir name2) destDir = true →
        ¬(opts.MaxBytes > 0 ∧ s.extracted + (f.uncompressedSize : Int) > opts.MaxBytes) →
        (mkdirAll s.fs (joinRel destDir name2).dropLast).2 = none →
        isDirAt (mkdirAll s.fs (joinRel destDir name2).dropLast).1 (joinRel destDir name2)
          = false →
        f.actualData < f.uncompressedSize →
        (extractZipFile destDir opts s f).2 = some XErr.incompleteEntry ∧
        lookupFs (extractZipFile destDir opts s f).1.fs (joinRel destDir name2) =
          some (.file f.actualData 0o644) ∧
        joinRel destDir name2 ∈ (extractZipFile destDir opts s f).1.tracked) := by
  constructor
  · intro destDir opts s h name2 htype hname hne hsafe hsz hpre hmk hdirat hav
    have hwr : min h.size ((h.avail : Nat) : Int) = ((h.avail : Nat) : Int) :=
      min_eq_right (le_of_lt hav)
    have hneq : min h.size ((h.avail : Nat) : Int) ≠ h.size := by
      rw [hwr]; omega
    have hstep : processTarEntry destDir opts s h =
        ({ s with
            fs := insertFs (mkdirAll s.fs (joinRel destDir name2).dropLast).1
              (joinRel destDir name2)
              (.file (min h.size ((h.avail : Nat) : Int)).toNat 0o644)
            tracked := register s.tracked (joinRel destDir name2) },
          some XErr.incompleteEntry) := by
      unfold processTarEntry
      simp only [hname, htype, hsafe, Bool.not_true, Bool.false_eq_true, if_false,
        if_neg hne, if_neg (not_lt.mpr hsz), if_neg hpre, hmk, Option.isSome_none,
        hdirat, if_neg (not_not.mpr rfl), if_pos hneq]
    rw [hstep]
    refine ⟨rfl, ?_, by simp [register]⟩
    rw [hwr, Int.toNat_natCast]
    exact lookupFs_insert_self _ _ _
  · intro destDir opts s f name2 hdir hsym hname hne hsafe hpre hmk hdirat hav
    have hav2 : ((f.actualData : Nat) : Int) < ((f.uncompressedSize : Nat) : Int) := by
      exact_mod_cast hav
    have hwr : min ((f.uncompressedSize : Nat) : Int) ((f.actualData : Nat) : Int) =
        ((f.actualData : Nat) : Int) := min_eq_right (le_of_lt hav2)
    have hneq : min ((f.uncompressedSize : Nat) : Int) ((f.actualData : Nat) : Int) ≠
        ((f.uncompressedSize : Nat) : Int) := by
      rw [hwr]; omega
    have hstep : extractZipFile destDir opts s f =
        ({ s with
            fs := insertFs (mkdirAll s.fs (joinRel destDir name2).dropLast).1
              (joinRel destDir name2)
              (.file (min ((f.uncompressedSize : Nat) : Int)
                ((f.actualData : Nat) : Int)).toNat 0o644)
            tracked := register s.tracked (joinRel destDir name2) },
          some XErr.incompleteEntry) := by
      unfold extractZipFile
      simp only [hname, hdir, hsym, hsafe, Bool.not_true, Bool.false_eq_true, if_false,
        if_neg hne, hmk, Option.isSome_none, hdirat, if_neg hpre, if_pos hneq]
    rw [hstep]
    refine ⟨rfl, ?_, by simp [register]⟩
    rw [hwr, Int.toNat_natCast]
    exact lookupFs_insert_self _ _ _

/-- Witness for C4 (amended) at the counterexample's input. -/
theorem claim_C4_witness :
    (processTarEntry ["d"] ⟨0, 0⟩ ⟨[], 0, [], []⟩
        { name := "f", typeflag := .reg, size := 100, mode := 0, linkname := "",
          avail := 50 }).2 = some XErr.incompleteEntry ∧
    lookupFs (processTarEntry ["d"] ⟨0, 0⟩ ⟨[], 0, [], []⟩
        { name := "f", typeflag := .reg, size := 100, mode := 0, linkname := "",
          avail := 50 }).1.fs (joinRel ["d"] "f") = some (.file 50 0o644) ∧
    joinRel ["d"] "f" ∈ (processTarEntry ["d"] ⟨0, 0⟩ ⟨[], 0, [], []⟩
        { name := "f", typeflag := .reg, size := 100, mode := 0, linkname := "",
          avail := 50 }).1.tracked :=
  claim_C4.1 ["d"] ⟨0, 0⟩ ⟨[], 0, [], []⟩
    { name := "f", typeflag := .reg, size := 100, mode := 0, linkname := "", avail := 50 }
    "f" rfl (by rfl) (by decide) (by decide) (by decide) (by decide) (by decide)
    (by decide) (by decide)

/-- C1, evaluation at the failing input (the repository's own regression
scenario): extracting the tar symlink entry `pkg/bin/alias -> ../lib/tool`
with `stripComponents = 1` succeeds, but the symlink stored on disk carries
the stripped target `lib/tool` — not the archived string `../lib/tool` —
because `extractTar` (and likewise `extractZipFile`, second half, with the
target as the entry payload) applies `StripPathComponents` to relative
symlink targets.  This contradicts the claim, the repository's fix note for
this exact bug, and its end-to-end test. -/
theorem claim_C1_code_eval :
    ((processTarEntry ["dest"] ⟨1, 0⟩ ⟨[], 0, [], []⟩
        { name := "pkg/bin/alias", typeflag := .symlink, size := 0, mode := 0o777,
          linkname := "../lib/tool", avail := 0 }).2 = none ∧
      lookupFs (processTarEntry ["dest"] ⟨1, 0⟩ ⟨[], 0, [], []⟩
        { name := "pkg/bin/alias", typeflag := .symlink, size := 0, mode := 0o777,
          linkname := "../lib/tool", avail := 0 }).1.fs ["dest", "bin", "alias"] =
        some (.symlink "lib/tool") ∧
      lookupFs (processTarEntry ["dest"] ⟨1, 0⟩ ⟨[], 0, [], []⟩
        { name := "pkg/bin/alias", typeflag := .symlink, size := 0, mode := 0o777,
          linkname := "../lib/tool", avail := 0 }).1.fs ["dest", "bin", "alias"] ≠
        some (.symlink "../lib/tool")) ∧
    ((extractZipFile ["dest"] ⟨1, 0⟩ ⟨[], 0, []⟩
        { name := "pkg/bin/alias", isDir := false, isSymlink := true, mode := 0o777,
          uncompressedSize := 11, actualData := 11, payload := "../lib/tool" }).2 = none ∧
      lookupFs (extractZipFile ["dest"] ⟨1, 0⟩ ⟨[], 0, []⟩
        { name := "pkg/bin/alias", isDir := false, isSymlink := true, mode := 0o777,
          uncompressedSize := 11, actualData := 11, payload := "../lib/tool" }).1.fs
        ["dest", "bin", "alias"] = some (.symlink "lib/tool")) := by
  refine ⟨⟨by decide, by decide, by decide⟩, by decide, by decide⟩

/-- C2, evaluation at the claim's scenario: a zip entry declaring
`uncompressedSize = 10` whose decompressed stream holds 10000000 bytes,
extracted with `maxBytes = 1000`, does NOT abort with `SizeLimitExceeded`:
`extractZipFile` bounds the copy by the declared size
(`io.CopyN(outFile, rc, int64(f.UncompressedSize64))`), writes exactly 10
bytes, counts 10 bytes against the budget, and returns success — silently
truncating the entry instead of enforcing the budget on measured bytes. -/
theorem claim_C2_code_eval :
    (extractZipFile ["dest"] ⟨0, 1000⟩ ⟨[], 0, []⟩
        { name := "data.bin", isDir := false, isSymlink := false, mode := 0o644,
          uncompressedSize := 10, actualData := 10000000, payload := "" }).2 = none ∧
    lookupFs (extractZipFile ["dest"] ⟨0, 1000⟩ ⟨[], 0, []⟩
        { name := "data.bin", isDir := false, isSymlink := false, mode := 0o644,
          uncompressedSize := 10, actualData := 10000000, payload := "" }).1.fs
      ["dest", "data.bin"] = some (.file 10 0o644) ∧
    (extractZipFile ["dest"] ⟨0, 1000⟩ ⟨[], 0, []⟩
        { name := "data.bin", isDir := false, isSymlink := false, mode := 0o644,
          uncompressedSize := 10, actualData := 10000000, payload := "" }).1.extracted
      = 10 := by
  refine ⟨by decide, by decide, by decide⟩

end Ripvex
